import Mathlib

/-!
Verification of the halmoni symbolic music-theory engine.

This file gives a shallow embedding in Lean 4 of the parts of the
halmoni Python package (core pitch/harmony model, chord/key detectors,
suggestion strategies and engine, beam-search scoring helpers) that the
specification claims talk about, and proves or refutes each claim.

Python strings are modelled as lists of characters; Python `None` and
raised exceptions are modelled with `Option` (a `none` result of a
constructor-style function models a raised `ValueError`/`KeyError`);
Python floats are modelled as rational numbers.
-/

namespace Halmoni

/-- Pitch-class names with sharps, `Note.CHROMATIC_SCALE` from note.py. -/
def chromaticScale : List (List Char) :=
  ["C".data, "C#".data, "D".data, "D#".data, "E".data, "F".data,
   "F#".data, "G".data, "G#".data, "A".data, "A#".data, "B".data]

/-- Pitch-class names with flats, `Note.FLAT_SCALE` from note.py. -/
def flatScale : List (List Char) :=
  ["C".data, "Db".data, "D".data, "Eb".data, "E".data, "F".data,
   "Gb".data, "G".data, "Ab".data, "A".data, "Bb".data, "B".data]

/-- A constructed `Note` object: pitch-class string, octave, MIDI number. -/
structure PyNote where
  pc : List Char
  octave : ℤ
  midi : ℤ
deriving DecidableEq, Repr, Inhabited

/-- The regex check of `Note._normalize_pitch_class`: one letter A-G
followed by an optional sharp or flat sign. -/
def validPitchClass (p : List Char) : Bool :=
  match p with
  | [c] => 'A' ≤ c && c ≤ 'G'
  | [c, a] => ('A' ≤ c && c ≤ 'G') && (a = '#' || a = 'b')
  | _ => false

/-- Index of a pitch-class name in the chromatic (sharp) scale, falling
back to the flat scale, as in `Note._calculate_midi_number`; `none`
models the uncaught `ValueError` (names such as Cb or E# are in neither
table). -/
def pitchIndex (p : List Char) : Option ℤ :=
  match chromaticScale.findIdx? (fun q => q = p) with
  | some i => some (i : ℤ)
  | none =>
    match flatScale.findIdx? (fun q => q = p) with
    | some i => some (i : ℤ)
    | none => none

/-- `Note.__init__` with a pitch-class string and an octave: validates
the pitch-class shape and the octave range 0..10, then computes
`midi = (octave + 1) * 12 + pitch_index`.  No check is made on the
resulting MIDI number. -/
def noteFromString (p : List Char) (oct : ℤ) : Option PyNote :=
  if validPitchClass p = true then
    if 0 ≤ oct ∧ oct ≤ 10 then
      match pitchIndex p with
      | some i => some ⟨p, oct, (oct + 1) * 12 + i⟩
      | none => none
    else none
  else none

/-- `Note.__init__` with a raw MIDI integer: validates 0..127, derives
the sharp-spelled pitch class and `octave = midi // 12 - 1`. -/
def noteFromMidi (m : ℤ) : Option PyNote :=
  if 0 ≤ m ∧ m ≤ 127 then
    some ⟨chromaticScale.getD (m % 12).toNat [], m / 12 - 1, m⟩
  else none

/-- `Note.transpose`: checks that the shifted MIDI number stays in
0..127 and rebuilds the note from it. -/
def transposeNote (n : PyNote) (s : ℤ) : Option PyNote :=
  noteFromMidi (n.midi + s)

/-- Dictionary lookup on an association list keyed by strings, the
model of a Python dict read (`d[k]` / `k in d`). -/
def lookupStr {α : Type} (k : List Char) (m : List (List Char × α)) : Option α :=
  (m.find? (fun e => e.1 = k)).map (fun e => e.2)

/-- The chord-quality catalog `Chord.CHORD_TONES` from chord.py. -/
def chordTones : List (List Char × List ℤ) :=
  [("major".data, [0, 4, 7]),
   ("minor".data, [0, 3, 7]),
   ("diminished".data, [0, 3, 6]),
   ("augmented".data, [0, 4, 8]),
   ("major7".data, [0, 4, 7, 11]),
   ("minor7".data, [0, 3, 7, 10]),
   ("dominant7".data, [0, 4, 7, 10]),
   ("diminished7".data, [0, 3, 6, 9]),
   ("half_diminished7".data, [0, 3, 6, 10]),
   ("major9".data, [0, 4, 7, 11, 2]),
   ("minor9".data, [0, 3, 7, 10, 2]),
   ("dominant9".data, [0, 4, 7, 10, 2]),
   ("major11".data, [0, 4, 7, 11, 2, 5]),
   ("minor11".data, [0, 3, 7, 10, 2, 5]),
   ("dominant11".data, [0, 4, 7, 10, 2, 5]),
   ("major13".data, [0, 4, 7, 11, 2, 5, 9]),
   ("minor13".data, [0, 3, 7, 10, 2, 5, 9]),
   ("dominant13".data, [0, 4, 7, 10, 2, 5, 9]),
   ("sus2".data, [0, 2, 7]),
   ("sus4".data, [0, 5, 7])]

/-- The quality-to-symbol table `Chord.CHORD_SYMBOLS` from chord.py. -/
def chordSymbols : List (List Char × List Char) :=
  [("major".data, "".data),
   ("minor".data, "m".data),
   ("diminished".data, "dim".data),
   ("augmented".data, "aug".data),
   ("major7".data, "maj7".data),
   ("minor7".data, "m7".data),
   ("dominant7".data, "7".data),
   ("diminished7".data, "dim7".data),
   ("half_diminished7".data, "m7b5".data),
   ("major9".data, "maj9".data),
   ("minor9".data, "m9".data),
   ("dominant9".data, "9".data),
   ("major11".data, "maj11".data),
   ("minor11".data, "m11".data),
   ("dominant11".data, "11".data),
   ("major13".data, "maj13".data),
   ("minor13".data, "m13".data),
   ("dominant13".data, "13".data),
   ("sus2".data, "sus2".data),
   ("sus4".data, "sus4".data)]

/-- A constructed `Chord` object (root, quality, bass — the bass
defaults to the root in the constructor). -/
structure PyChord where
  root : PyNote
  quality : List Char
  bass : PyNote
deriving DecidableEq, Repr, Inhabited

/-- `Chord.__init__`: stores root, quality and bass (`bass or root`),
raising ValueError when the quality is not in the catalog. -/
def mkChord (root : PyNote) (quality : List Char) (bass : Option PyNote) :
    Option PyChord :=
  match lookupStr quality chordTones with
  | some _ => some ⟨root, quality, bass.getD root⟩
  | none => none

/-- `Chord.notes`: the root transposed by each cataloged interval;
fails when a transposition leaves the MIDI range. -/
def chordNotes (c : PyChord) : Option (List PyNote) :=
  match lookupStr c.quality chordTones with
  | some tones => tones.mapM (fun t => transposeNote c.root t)
  | none => none

/-- `Chord.pitch_classes`: the set of pitch-class strings of the
chord's notes, modelled as a duplicate-free list. -/
def chordPitchClasses (c : PyChord) : Option (List (List Char)) :=
  (chordNotes c).map (fun ns => (ns.map (fun n => n.pc)).dedup)

/-- `Chord.symbol`: root pitch class, quality symbol, and a slash-bass
suffix when the bass differs from the root (Note equality is MIDI
equality). -/
def chordSymbol (c : PyChord) : List Char :=
  c.root.pc ++ (lookupStr c.quality chordSymbols).getD [] ++
    (if c.bass.midi = c.root.midi then [] else '/' :: c.bass.pc)

/-- The quality-alias table of `Chord._parse_quality`. -/
def qualityMap : List (List Char × List Char) :=
  [("".data, "major".data),
   ("M".data, "major".data),
   ("maj".data, "major".data),
   ("m".data, "minor".data),
   ("min".data, "minor".data),
   ("dim".data, "diminished".data),
   ("°".data, "diminished".data),
   ("aug".data, "augmented".data),
   ("+".data, "augmented".data),
   ("7".data, "dominant7".data),
   ("maj7".data, "major7".data),
   ("M7".data, "major7".data),
   ("m7".data, "minor7".data),
   ("min7".data, "minor7".data),
   ("dim7".data, "diminished7".data),
   ("°7".data, "diminished7".data),
   ("m7b5".data, "half_diminished7".data),
   ("ø7".data, "half_diminished7".data),
   ("9".data, "dominant9".data),
   ("maj9".data, "major9".data),
   ("M9".data, "major9".data),
   ("m9".data, "minor9".data),
   ("11".data, "dominant11".data),
   ("maj11".data, "major11".data),
   ("m11".data, "minor11".data),
   ("13".data, "dominant13".data),
   ("maj13".data, "major13".data),
   ("m13".data, "minor13".data),
   ("sus2".data, "sus2".data),
   ("sus4".data, "sus4".data)]

/-- Python str.split on the slash character: splits a string into the
(possibly empty) pieces between occurrences of the separator. -/
def splitOnSlash : List Char → List (List Char)
  | [] => [[]]
  | c :: rest =>
    let r := splitOnSlash rest
    if c = '/' then [] :: r
    else
      match r with
      | h :: t => (c :: h) :: t
      | [] => [[c]]

/-- Root-and-quality parsing of `Chord.from_symbol` after the slash
split: first character is the root letter, an immediately following
sharp or flat sign joins it, and the remainder is looked up in the
quality-alias table. -/
def parseChordPart (cp : List Char) (bass : Option PyNote) (octave : ℤ) :
    Option PyChord :=
  match cp with
  | [] => none
  | r :: rest =>
    let p : List Char × List Char :=
      match rest with
      | a :: rest2 => if a = '#' ∨ a = 'b' then ([r, a], rest2) else ([r], rest)
      | [] => ([r], [])
    match noteFromString p.1 octave with
    | some rootNote =>
      match lookupStr p.2 qualityMap with
      | some q => mkChord rootNote q bass
      | none => none
    | none => none

/-- `Chord.from_symbol`: optional slash-bass suffix, then root and
quality; the two-value unpack of Python's split fails on more than one
slash. -/
def fromSymbol (symbol : List Char) (octave : ℤ) : Option PyChord :=
  match splitOnSlash symbol with
  | [chordPart] => parseChordPart chordPart none octave
  | [chordPart, bassPart] =>
    match noteFromString bassPart octave with
    | some b => parseChordPart chordPart (some b) octave
    | none => none
  | _ => none

/-- `Chord.__eq__`: roots and basses compared by MIDI number, quality
by string equality. -/
def chordEquals (a b : PyChord) : Bool :=
  a.root.midi = b.root.midi && a.quality = b.quality && a.bass.midi = b.bass.midi

/-- The 17 pitch-class spellings accepted by the Note constructor
(naturals, the five sharp names and the five flat names). -/
def validPcs : List (List Char) :=
  ["C".data, "C#".data, "Db".data, "D".data, "D#".data, "Eb".data,
   "E".data, "F".data, "F#".data, "Gb".data, "G".data, "G#".data,
   "Ab".data, "A".data, "A#".data, "Bb".data, "B".data]

/-- Symbol round trip checked over every cataloged quality and every
valid root pitch class at octave 4 with bass equal to the root. -/
def roundTripOk : Bool :=
  (chordTones.map (fun e => e.1)).all (fun q =>
    validPcs.all (fun p =>
      match noteFromString p 4 with
      | some root =>
        match mkChord root q none with
        | some c =>
          match fromSymbol (chordSymbol c) 4 with
          | some c2 => chordEquals c2 c
          | none => false
        | none => false
      | none => false))

/-- The functional-transition scoring table of
`score_functional_transition` in chord_jazzer_demo.py, checked in
source order.  Note there is no subdominant-to-tonic case: that pair
falls through to the default. -/
def scoreFunctionalTransition (func1 func2 : List Char) : ℚ :=
  if func1 = "subdominant".data ∧ func2 = "dominant".data then 1
  else if func1 = "dominant".data ∧ func2 = "tonic".data then 1
  else if func1 = "tonic".data ∧
      (func2 = "subdominant".data ∨ func2 = "dominant".data) then 0.7
  else if func1 = "dominant".data ∧ func2 = "subdominant".data then 0.1
  else if func1 = "tonic".data ∧ func2 = "tonic".data then 0.5
  else 0.3

/-- The scale catalog `Scale.SCALE_PATTERNS` from scale.py. -/
def scalePatterns : List (List Char × List ℤ) :=
  [("major".data, [0, 2, 4, 5, 7, 9, 11]),
   ("natural_minor".data, [0, 2, 3, 5, 7, 8, 10]),
   ("harmonic_minor".data, [0, 2, 3, 5, 7, 8, 11]),
   ("melodic_minor".data, [0, 2, 3, 5, 7, 9, 11]),
   ("dorian".data, [0, 2, 3, 5, 7, 9, 10]),
   ("phrygian".data, [0, 1, 3, 5, 7, 8, 10]),
   ("lydian".data, [0, 2, 4, 6, 7, 9, 11]),
   ("mixolydian".data, [0, 2, 4, 5, 7, 9, 10]),
   ("locrian".data, [0, 1, 3, 5, 6, 8, 10]),
   ("chromatic".data, [0, 1, 2, 3, 4, 5, 6, 7, 8, 9, 10, 11]),
   ("pentatonic_major".data, [0, 2, 4, 7, 9]),
   ("pentatonic_minor".data, [0, 3, 5, 7, 10]),
   ("blues".data, [0, 3, 5, 6, 7, 10]),
   ("whole_tone".data, [0, 2, 4, 6, 8, 10]),
   ("diminished_hw".data, [0, 1, 3, 4, 6, 7, 9, 10]),
   ("diminished_wh".data, [0, 2, 3, 5, 6, 8, 9, 11])]

/-- The mode-name table `Scale.MODE_NAMES` (keys 0..6) from scale.py. -/
def modeNames : List (List Char) :=
  ["ionian".data, "dorian".data, "phrygian".data, "lydian".data,
   "mixolydian".data, "aeolian".data, "locrian".data]

/-- A constructed `Scale` object: tonic note and scale-type name. -/
structure PyScale where
  tonic : PyNote
  scaleType : List Char
deriving DecidableEq, Repr, Inhabited

/-- `Scale.__init__` against a given state of the shared SCALE_PATTERNS
table: raises ValueError when the scale type is not in the table. -/
def mkScaleT (table : List (List Char × List ℤ)) (tonic : PyNote)
    (scaleType : List Char) : Option PyScale :=
  if (lookupStr scaleType table).isSome then some ⟨tonic, scaleType⟩ else none

/-- `Scale.pattern` against a given state of the SCALE_PATTERNS table;
`none` models the KeyError raised when the type is missing. -/
def scalePattern (table : List (List Char × List ℤ)) (s : PyScale) :
    Option (List ℤ) :=
  lookupStr s.scaleType table

/-- `Scale.notes` against a given state of the SCALE_PATTERNS table:
tonic transposed by each pattern entry. -/
def scaleNotesT (table : List (List Char × List ℤ)) (s : PyScale) :
    Option (List PyNote) :=
  match scalePattern table s with
  | some pat => pat.mapM (fun t => transposeNote s.tonic t)
  | none => none

/-- Python dict assignment `d[k] = v`: replaces the value in place when
the key is present, appends the pair otherwise. -/
def dictInsert {α : Type} (k : List Char) (v : α)
    (t : List (List Char × α)) : List (List Char × α) :=
  if (lookupStr k t).isSome then
    t.map (fun e => if e.1 = k then (k, v) else e)
  else t ++ [(k, v)]

/-- `Scale.from_mode` as a state-passing function on the shared
SCALE_PATTERNS table: validates the parent and mode, rotates the parent
pattern, derives the mode name, temporarily adds the pattern to the
table, constructs the Scale, and restores the saved copy of the table
in a finally block.  Returns the constructed scale (or `none` for a
raised error) together with the table state after the call. -/
def fromMode (table : List (List Char × List ℤ)) (tonic : PyNote)
    (mode : ℕ) (parent : List Char) :
    Option PyScale × List (List Char × List ℤ) :=
  match lookupStr parent table with
  | none => (none, table)
  | some parentPattern =>
    if mode < parentPattern.length then
      let modeRoot := parentPattern.getD mode 0
      let rotated := parentPattern.drop mode ++ parentPattern.take mode
      let modePattern := rotated.map (fun d => (d - modeRoot) % 12)
      let modeName :=
        if parent = "major".data ∧ mode < 7 then modeNames.getD mode []
        else parent ++ "_mode_".data ++ Nat.toDigits 10 mode
      let table1 := dictInsert modeName modePattern table
      match mkScaleT table1 tonic modeName with
      | some s => (some s, table)
      | none => (none, table)
    else (none, table)

/-- A constructed `Key` object: tonic note and mode string. -/
structure PyKey where
  tonic : PyNote
  mode : List Char
deriving DecidableEq, Repr, Inhabited

/-- `Key.__init__`: the mode must be major or minor. -/
def mkKey (tonic : PyNote) (mode : List Char) : Option PyKey :=
  if mode = "major".data ∨ mode = "minor".data then some ⟨tonic, mode⟩ else none

/-- The scale derived by `Key.__init__`: the major scale for major
keys, the natural minor scale otherwise. -/
def keyScale (k : PyKey) : PyScale :=
  ⟨k.tonic, if k.mode = "major".data then "major".data else "natural_minor".data⟩

/-- `Scale.get_note_degree`: the 1-based index of the first scale note
whose pitch-class string equals the given note's, or an inner `none`
when there is no match; the outer `none` models a failure while
computing the scale notes. -/
def getNoteDegree (s : PyScale) (n : PyNote) : Option (Option ℕ) :=
  (scaleNotesT scalePatterns s).map (fun ns =>
    (ns.findIdx? (fun sn => sn.pc = n.pc)).map (fun i => i + 1))

/-- `Scale.pitch_classes`: the pitch classes of the scale notes. -/
def scalePitchClassesOf (s : PyScale) : Option (List (List Char)) :=
  (scaleNotesT scalePatterns s).map (fun ns => ns.map (fun n => n.pc))

/-- `Scale.get_chord_for_degree` for triads: samples scale positions
0, 2, 4 relative to the degree (wrapping), classifies the interval
pair, and builds the chord, defaulting to major for unmatched pairs. -/
def getChordForDegree (s : PyScale) (degree : ℕ) : Option PyChord :=
  match scalePattern scalePatterns s with
  | none => none
  | some pat =>
    match scaleNotesT scalePatterns s with
    | none => none
    | some ns =>
      if 1 ≤ degree ∧ degree ≤ pat.length then
        let root := ns.getD (degree - 1) default
        let scaleLength := ns.length
        let chordNs := [0, 2, 4].map
          (fun off => ns.getD ((degree - 1 + off) % scaleLength) default)
        let intervals := (chordNs.drop 1).map
          (fun n => (n.midi - root.midi) % (12 : ℤ))
        let quality :=
          if intervals = [4, 7] then "major".data
          else if intervals = [3, 7] then "minor".data
          else if intervals = [3, 6] then "diminished".data
          else if intervals = [4, 8] then "augmented".data
          else "major".data
        mkChord root quality none
      else none

/-- Python set equality for two pitch-class collections. -/
def setEqB (a b : List (List Char)) : Bool :=
  a.all (fun x => b.contains x) && b.all (fun x => a.contains x)

/-- The degree-to-function branch ladder of `Key.analyze_chord`,
written exactly in the source's checking order for each mode. -/
def functionOfDegree (mode : List Char) (d : ℕ) : Option (List Char) :=
  if mode = "major".data then
    if d = 1 then some ("tonic".data)
    else if d = 4 then some ("subdominant".data)
    else if d = 5 then some ("dominant".data)
    else if d = 6 ∨ d = 3 then some ("tonic".data)
    else if d = 2 then some ("subdominant".data)
    else if d = 7 then some ("dominant".data)
    else none
  else
    if d = 1 then some ("tonic".data)
    else if d = 4 then some ("subdominant".data)
    else if d = 5 then some ("dominant".data)
    else if d = 3 ∨ d = 6 then some ("tonic".data)
    else if d = 2 then some ("subdominant".data)
    else if d = 7 then some ("dominant".data)
    else none

/-- The fixed degree table stated by the specification: degrees 1, 3, 6
map to tonic, 2 and 4 to subdominant, 5 and 7 to dominant, identically
in both modes. -/
def degreeFunctionTable (d : ℕ) : Option (List Char) :=
  if d = 1 ∨ d = 3 ∨ d = 6 then some ("tonic".data)
  else if d = 2 ∨ d = 4 then some ("subdominant".data)
  else if d = 5 ∨ d = 7 then some ("dominant".data)
  else none

/-- The analysis record returned by `Key.analyze_chord`. -/
structure PyAnalysis where
  degree : Option ℕ
  function : Option (List Char)
  isDiatonic : Bool
  nonChordTones : List (List Char)
deriving DecidableEq, Repr

/-- `Key.analyze_chord`: finds the chord root's scale degree, compares
the chord's pitch classes with the expected diatonic chord, collects
non-chord tones, and assigns the harmonic function from the per-mode
degree ladder (Python leaves the function at None when the degree is
None). -/
def analyzeChord (k : PyKey) (c : PyChord) : Option PyAnalysis :=
  match getNoteDegree (keyScale k) c.root with
  | none => none
  | some none => some ⟨none, none, false, []⟩
  | some (some d) =>
    match getChordForDegree (keyScale k) d with
    | none => none
    | some expected =>
      match chordPitchClasses c with
      | none => none
      | some cpcs =>
        match chordPitchClasses expected with
        | none => none
        | some epcs =>
          match scalePitchClassesOf (keyScale k) with
          | none => none
          | some spcs =>
            let diatonic := setEqB cpcs epcs
            let nct :=
              if diatonic then ([] : List (List Char))
              else cpcs.filter (fun pc => !(spcs.contains pc))
            some ⟨some d, functionOfDegree k.mode d, diatonic, nct⟩

/-- A constructed `ChordProgression`: parallel chord and duration
lists plus an optional key. -/
structure PyProgression where
  chords : List PyChord
  key : Option PyKey
  durations : List ℚ
deriving DecidableEq, Repr

/-- `ChordProgression.__init__`: rejects an empty chord list and a
durations list whose length differs from the chord list; defaults the
durations to 1.0 per chord. -/
def mkProgression (chords : List PyChord) (key : Option PyKey)
    (durations : Option (List ℚ)) : Option PyProgression :=
  if chords = [] then none
  else
    match durations with
    | none => some ⟨chords, key, List.replicate chords.length 1⟩
    | some ds =>
      if ds.length = chords.length then some ⟨chords, key, ds⟩ else none

/-- `ChordProgression.transpose`: transposes every chord root (and the
bass when it differs from the root) and the key tonic, then rebuilds
the progression with the same durations. -/
def progressionTranspose (p : PyProgression) (semitones : ℤ) :
    Option PyProgression :=
  match p.chords.mapM (fun c =>
      match transposeNote c.root semitones with
      | none => none
      | some nr =>
        if c.bass.midi = c.root.midi then mkChord nr c.quality none
        else
          match transposeNote c.bass semitones with
          | none => none
          | some nb => mkChord nr c.quality (some nb)) with
  | none => none
  | some newChords =>
    match p.key with
    | none => mkProgression newChords none (some p.durations)
    | some k =>
      match transposeNote k.tonic semitones with
      | none => none
      | some nt =>
        match mkKey nt k.mode with
        | none => none
        | some nk => mkProgression newChords (some nk) (some p.durations)

/-- `ChordProgression.substitute_chord`: copies the chord list with one
index replaced; an out-of-range index raises IndexError. -/
def substituteChord (p : PyProgression) (index : ℕ) (newChord : PyChord) :
    Option PyProgression :=
  if index < p.chords.length then
    mkProgression (p.chords.set index newChord) p.key (some p.durations)
  else none

/-- Python list.insert: inserts before the index, clamping an index
past the end to an append. -/
def pyInsert {α : Type} (l : List α) (i : ℕ) (x : α) : List α :=
  l.take i ++ x :: l.drop i

/-- `ChordProgression.insert_chord`: inserts a chord and its duration
at the same position and rebuilds the progression. -/
def insertChord (p : PyProgression) (index : ℕ) (chord : PyChord)
    (duration : ℚ) : Option PyProgression :=
  mkProgression (pyInsert p.chords index chord) p.key
    (some (pyInsert p.durations index duration))

/-- `ChordProgression.extend`: concatenates chords and durations,
keeping the first progression's key. -/
def extendProgression (p other : PyProgression) : Option PyProgression :=
  mkProgression (p.chords ++ other.chords) p.key
    (some (p.durations ++ other.durations))

/-- `ChordProgression.repeat`: rejects a non-positive count, then
replicates both parallel lists. -/
def repeatProgression (p : PyProgression) (times : ℕ) :
    Option PyProgression :=
  if times < 1 then none
  else
    mkProgression (List.flatten (List.replicate times p.chords)) p.key
      (some (List.flatten (List.replicate times p.durations)))

/-- The data-model invariant of ChordProgression: non-empty chord list
and equal-length durations. -/
def progInvariant (p : PyProgression) : Prop :=
  p.chords ≠ [] ∧ p.chords.length = p.durations.length

/-- A `ChordSuggestion` record from base_strategy.py. -/
structure PySuggestion where
  chord : PyChord
  confidence : ℚ
  reasoning : List Char
  position : ℚ
  voiceLeadingQuality : ℚ
  strategySource : Option (List Char)
deriving DecidableEq, Repr

/-- The deduplication key used by the engine: the pair of the chord's
symbol and the suggestion's position. -/
def suggKey (s : PySuggestion) : List Char × ℚ :=
  (chordSymbol s.chord, s.position)

/-- One iteration of the grouping loop of
`ChordSuggestionEngine._remove_duplicates`: insert the suggestion under
its key, or replace the stored one when strictly more confident (a
Python dict update keeps the key's insertion position). -/
def dedupStep (groups : List ((List Char × ℚ) × PySuggestion))
    (s : PySuggestion) : List ((List Char × ℚ) × PySuggestion) :=
  match groups.find? (fun e => e.1 = suggKey s) with
  | none => groups ++ [(suggKey s, s)]
  | some e =>
    if s.confidence > e.2.confidence then
      groups.map (fun e2 => if e2.1 = suggKey s then (e2.1, s) else e2)
    else groups

/-- `ChordSuggestionEngine._remove_duplicates`: group by key keeping
the higher-confidence entry and return the stored values in key
insertion order. -/
def removeDuplicates (l : List PySuggestion) : List PySuggestion :=
  (l.foldl dedupStep []).map (fun e => e.2)

/-- The merge-and-rank tail of `ChordSuggestionEngine.get_suggestions`
applied to the merged strategy output: deduplicate, sort by confidence
descending, return the first max_suggestions entries. -/
def getSuggestionsPost (l : List PySuggestion) (maxSuggestions : ℕ) :
    List PySuggestion :=
  ((removeDuplicates l).mergeSort
    (fun a b => decide (b.confidence ≤ a.confidence))).take maxSuggestions

/-- The invariant of the grouping loop: stored keys are distinct, every
stored entry is a processed suggestion carrying its own key with
maximal confidence among processed suggestions of that key, and every
processed suggestion's key is stored. -/
def groupsInv (processed : List PySuggestion)
    (groups : List ((List Char × ℚ) × PySuggestion)) : Prop :=
  (groups.map Prod.fst).Nodup ∧
  (∀ e, e ∈ groups → suggKey e.2 = e.1 ∧ e.2 ∈ processed ∧
      ∀ t, t ∈ processed → suggKey t = e.1 →
        t.confidence ≤ e.2.confidence) ∧
  (∀ t, t ∈ processed → ∃ e, e ∈ groups ∧ e.1 = suggKey t)

/-- The Krumhansl-Schmuckler major profile `KeyDetector.MAJOR_PROFILE`. -/
def majorProfile : List ℚ :=
  [6.35, 2.23, 3.48, 2.33, 4.38, 4.09, 2.52, 5.19, 2.39, 3.66, 2.29, 2.88]

/-- The Krumhansl-Schmuckler minor profile `KeyDetector.MINOR_PROFILE`. -/
def minorProfile : List ℚ :=
  [6.33, 2.68, 3.52, 5.38, 2.60, 3.53, 2.54, 4.75, 3.98, 2.69, 3.34, 3.17]

/-- The fixed default key returned for empty input: C major. -/
def defaultKeyC : PyKey := ⟨⟨"C".data, 4, 60⟩, "major".data⟩

/-- The accumulation loop of `KeyDetector._create_pitch_class_histogram`:
look up each note's pitch class in the sharp table (a flat spelling
raises an uncaught ValueError), take its weight (1.0 when the weights
list is absent or empty, otherwise an indexed access that can raise
IndexError), and add it to the pitch-class bin. -/
def histLoop : List PyNote → ℕ → Option (List ℚ) → List ℚ → Option (List ℚ)
  | [], _, _, hist => some hist
  | n :: rest, i, weights, hist =>
    match chromaticScale.findIdx? (fun q => q = n.pc) with
    | none => none
    | some idx =>
      match
        (match weights with
         | none => some (1 : ℚ)
         | some ws => if ws = [] then some (1 : ℚ) else ws[i]?) with
      | none => none
      | some w => histLoop rest (i + 1) weights
          (hist.set idx (hist.getD idx 0 + w))

/-- `KeyDetector._create_pitch_class_histogram`: accumulate the
weighted 12-bin histogram and normalize it when its sum is positive. -/
def createPitchClassHistogram (notes : List PyNote)
    (weights : Option (List ℚ)) : Option (List ℚ) :=
  match histLoop notes 0 weights (List.replicate 12 0) with
  | none => none
  | some hist =>
    some (if hist.sum > 0 then hist.map (fun x => x / hist.sum) else hist)

/-- np.roll by minus i: rotate the profile left by i positions. -/
def rollProfile (profile : List ℚ) (i : ℕ) : List ℚ :=
  profile.drop i ++ profile.take i

/-- A rotated profile normalized to sum 1, as in
`KeyDetector._find_best_key_match`. -/
def normRoll (profile : List ℚ) (i : ℕ) : List ℚ :=
  (rollProfile profile i).map (fun x => x / (rollProfile profile i).sum)

/-- The 24 candidate keys of `_find_best_key_match` in iteration order:
the 12 major keys then the 12 minor keys, each paired with its
normalized rotated profile. -/
def keyCandidates : List (PyKey × List ℚ) :=
  ((List.range 12).map (fun i =>
    (PyKey.mk (PyNote.mk (chromaticScale.getD i []) 4 (60 + (i : ℤ)))
       ("major".data),
     normRoll majorProfile i))) ++
  ((List.range 12).map (fun i =>
    (PyKey.mk (PyNote.mk (chromaticScale.getD i []) 4 (60 + (i : ℤ)))
       ("minor".data),
     normRoll minorProfile i)))

/-- One candidate update of `_find_best_key_match`: skip a NaN
correlation (modelled as `none`), otherwise keep the candidate when its
correlation strictly improves the best. -/
def fbkStep (corr : List ℚ → List ℚ → Option ℚ) (hist : List ℚ)
    (acc : ℚ × PyKey) (cand : PyKey × List ℚ) : ℚ × PyKey :=
  match corr hist cand.2 with
  | none => acc
  | some c => if c > acc.1 then (c, cand.1) else acc

/-- The best correlation reached by the candidate loop, starting from
-1 with the C major default. -/
def bestCorrelation (corr : List ℚ → List ℚ → Option ℚ)
    (hist : List ℚ) : ℚ :=
  (keyCandidates.foldl (fbkStep corr hist) (-1, defaultKeyC)).1

/-- `KeyDetector._find_best_key_match`, parameterized by the Pearson
correlation of numpy (external library code): runs the candidate loop
and converts the best correlation to `max(0, (corr + 1) / 2)`. -/
def findBestKeyMatch (corr : List ℚ → List ℚ → Option ℚ)
    (hist : List ℚ) : PyKey × ℚ :=
  let best := keyCandidates.foldl (fbkStep corr hist) (-1, defaultKeyC)
  (best.2, max 0 ((best.1 + 1) / 2))

/-- `KeyDetector.detect_key_from_notes`: empty input returns the
default (C major, 0.0); otherwise build the histogram and match. -/
def detectKeyFromNotes (corr : List ℚ → List ℚ → Option ℚ)
    (notes : List PyNote) (weights : Option (List ℚ)) :
    Option (PyKey × ℚ) :=
  if notes = [] then some (defaultKeyC, 0)
  else
    match createPitchClassHistogram notes weights with
    | none => none
    | some hist => some (findBestKeyMatch corr hist)

/-- A MIDI note dictionary as consumed by the key detector; missing
keys are `none`. -/
structure MidiNoteDict where
  midiNote : Option ℤ
  duration : Option ℚ
  velocity : Option ℤ
deriving DecidableEq, Repr

/-- `KeyDetector.detect_key_from_midi_notes`: empty input returns the
default; otherwise each entry is converted to a Note (conversion
errors skip the entry) with weight duration times velocity / 127, and
the note-based detector is called. -/
def detectKeyFromMidiNotes (corr : List ℚ → List ℚ → Option ℚ)
    (midiNotes : List MidiNoteDict) : Option (PyKey × ℚ) :=
  if midiNotes = [] then some (defaultKeyC, 0)
  else
    let collected := midiNotes.foldl (fun acc d =>
      match d.midiNote with
      | none => acc
      | some m =>
        match noteFromMidi m with
        | none => acc
        | some note =>
          (acc.1 ++ [note],
           acc.2 ++ [(d.duration.getD 1) *
             ((d.velocity.getD 64 : ℚ) / 127)])) ([], [])
    detectKeyFromNotes corr collected.1 (some collected.2)

/-- `Interval.from_notes(n1, n2).simple_semitones`: the difference of
MIDI numbers reduced mod 12, always non-negative. -/
def simpleSemitones (m1 m2 : ℤ) : ℤ :=
  (m2 - m1) % 12

/-- `ChordSuggestionStrategy._calculate_voice_leading_quality` from
base_strategy.py, over the two chords' pitch-class sets (duplicate-free
lists) and root MIDI numbers: common-tone ratio, root-motion quality
with interval bonuses, combined 0.6/0.4 and clamped to the unit
interval. -/
def calculateVoiceLeadingQuality (pcs1 pcs2 : List (List Char))
    (rootMidi1 rootMidi2 : ℤ) : ℚ :=
  let commonTones := (pcs1.filter (fun p => pcs2.contains p)).length
  let maxPossibleCommon := min pcs1.length pcs2.length
  if maxPossibleCommon = 0 then 0.5
  else
    let commonToneRatio : ℚ := (commonTones : ℚ) / (maxPossibleCommon : ℚ)
    let rootMotionSemitones := |simpleSemitones rootMidi1 rootMidi2|
    let effectiveSemitones := min rootMotionSemitones (12 - rootMotionSemitones)
    let rootMotionQuality : ℚ :=
      1 - (effectiveSemitones : ℚ) / 12 +
        (if rootMotionSemitones = 5 ∨ rootMotionSemitones = 7 then 0.2
         else if rootMotionSemitones = 1 ∨ rootMotionSemitones = 2 then 0.1
         else if rootMotionSemitones = 3 ∨ rootMotionSemitones = 4 then 0.15
         else 0)
    min 1 (max 0 (commonToneRatio * 0.6 + rootMotionQuality * 0.4))

/-- `SubV7Strategy._calculate_sub_confidence`: base 0.8 plus bonuses
for a degree-5 original, a smoother bass line, a tonic resolution and
a jazz context, capped at 0.95.  The Booleans stand for the code's
branch predicates. -/
def subV7Confidence (degreeIs5 smoothBass resolvesToTonic jazzContext :
    Bool) : ℚ :=
  min 0.95 (0.8 + (if degreeIs5 then 0.1 else 0) +
    (if smoothBass then 0.1 else 0) +
    (if resolvesToTonic then 0.1 else 0) +
    (if jazzContext then 0.15 else 0))

/-- `SubV7Strategy._calculate_tritone_voice_leading`: 0.85 plus a 0.1
bonus for smoother bass motion, capped at 1. -/
def subV7TritoneVoiceLeading (smootherBass : Bool) : ℚ :=
  min 1 (0.85 + if smootherBass then 0.1 else 0)

/-- The confidence multipliers attached to the quality options of
`ChromaticApproachStrategy._get_passing_chord_qualities`. -/
def passingQualityMods : List ℚ := [1, 0.85, 0.75, 0.65, 0.6, 0.9]

/-- Descending passing-chord confidence from
`_generate_descending_passing_chords`: 0.75 times the quality
multiplier plus a fifth of the averaged voice-leading quality, capped
at 0.95. -/
def chromaticDescendingConfidence (qualityMod avgVl : ℚ) : ℚ :=
  min 0.95 (0.75 * qualityMod + avgVl * 0.2)

/-- Ascending passing-chord confidence from
`_generate_ascending_passing_chords`: 0.7 times the quality multiplier
plus a fifth of the averaged voice-leading quality, capped at 0.9. -/
def chromaticAscendingConfidence (qualityMod avgVl : ℚ) : ℚ :=
  min 0.9 (0.7 * qualityMod + avgVl * 0.2)

/-- `BorrowedChordStrategy._calculate_borrowed_chord_confidence`: base
0.7 with mode, function, voice-leading and cadence bonuses, capped at
0.95. -/
def borrowedChordConfidence (minorKey subdominantFn tonicColorFn
    cadential : Bool) (vl : ℚ) : ℚ :=
  min 0.95 (0.7 + (if minorKey then 0.1 else 0) +
    (if subdominantFn then 0.1 else if tonicColorFn then 0.05 else 0) +
    vl * 0.15 + (if cadential then 0.1 else 0))

/-- `BorrowedChordStrategy._calculate_modal_borrowed_confidence`: base
0.65 with a Mixolydian bonus and a voice-leading term, capped at 0.9. -/
def modalBorrowedConfidence (mixolydian : Bool) (vl : ℚ) : ℚ :=
  min 0.9 (0.65 + (if mixolydian then 0.15 else 0) + vl * 0.1)

/-- `NeapolitanStrategy._analyze_neapolitan_resolution`: resolution
quality 0.5, plus 0.3 when the next chord is dominant and another 0.2
when a tonic follows two steps ahead. -/
def neapolitanResolutionQuality (hasDominantNext hasTonicAfter : Bool) :
    ℚ :=
  0.5 + (if hasDominantNext then 0.3 else 0) +
    (if hasDominantNext && hasTonicAfter then 0.2 else 0)

/-- `NeapolitanStrategy._calculate_neapolitan_confidence`: per-variant
base, mode/function/degree/resolution bonuses, a resolution-quality
term and a voice-leading term (with a sixth-chord bonus), capped at
0.95. -/
def neapolitanConfidence (chordType : List Char) (minorKey subdominantFn
    degree2 hasDominantNext hasTonicAfter : Bool) (vl : ℚ) : ℚ :=
  let base :=
    (if chordType = "sixth".data then (0.85 : ℚ)
     else if chordType = "root".data then 0.65
     else if chordType = "seventh".data then 0.75 else 0.7) +
    (if minorKey then 0.1 else 0) + (if subdominantFn then 0.1 else 0) +
    (if degree2 then 0.15 else 0) +
    (if hasDominantNext then 0.1 else 0) +
    neapolitanResolutionQuality hasDominantNext hasTonicAfter * 0.2
  let vl2 := vl + (if chordType = "sixth".data then 0.1 else 0)
  min 0.95 (base + vl2 * 0.1)

/-- `SuspendStrategy._calculate_suspension_confidence`: per-type base,
functional-position, dominant-sus4 and contemporary bonuses, capped at
0.95. -/
def suspensionConfidence (susType : List Char) (functionalPos
    sus4Dominant contemporary : Bool) : ℚ :=
  min 0.95 ((if susType = "sus2".data then (0.75 : ℚ)
      else if susType = "sus4".data then 0.8 else 0.7) +
    (if functionalPos then 0.15 else 0) +
    (if susType = "sus4".data && sus4Dominant then 0.1 else 0) +
    (if contemporary then 0.05 else 0))

/-- The extra clamp applied in `_generate_suspensions` when sus4 lands
on a dominant-seventh or major chord. -/
def sus4ExtraBoost (applies : Bool) (conf : ℚ) : ℚ :=
  if applies then min 0.95 (conf + 0.1) else conf

/-- `TSDMovementStrategy._calculate_functional_confidence`: returns the
0.6 base outright when the suggested chord has no scale degree,
otherwise adds primary-degree, substitution and voice-leading bonuses
and caps at 0.95. -/
def functionalConfidence (degreeKnown primaryDegree commonSub : Bool)
    (vl : ℚ) : ℚ :=
  if degreeKnown = false then 0.6
  else
    min 0.95 (0.6 + (if primaryDegree then 0.2 else 0) +
      (if commonSub then 0.15 else 0) + vl * 0.15)

/-- The literal (confidence, voice-leading quality) constants attached
to suggestions: the Suspend resolution pair, the two TSDMovement
bridge-chord pairs, the two TSDMovement cadential pairs, and the
voice-leading constants of the SubV7 extension and altered variants. -/
def constantSuggestionValues : List (ℚ × ℚ) :=
  [(0.85, 0.9), (0.8, 0.8), (0.7, 0.75), (0.9, 0.95), (0.85, 0.8),
   (0.85, 0.8), (0.75, 0.75)]

/-- The detector's template catalog `ChordDetector.CHORD_TEMPLATES`
in declaration order; note the eight qualities (minor_major7,
augmented7 and the six altered dominants) that are not in
`Chord.CHORD_TONES`. -/
def chordTemplates : List (List Char × List ℤ) :=
  [("major".data, [0, 4, 7]),
   ("minor".data, [0, 3, 7]),
   ("diminished".data, [0, 3, 6]),
   ("augmented".data, [0, 4, 8]),
   ("sus2".data, [0, 2, 7]),
   ("sus4".data, [0, 5, 7]),
   ("major7".data, [0, 4, 7, 11]),
   ("minor7".data, [0, 3, 7, 10]),
   ("dominant7".data, [0, 4, 7, 10]),
   ("diminished7".data, [0, 3, 6, 9]),
   ("half_diminished7".data, [0, 3, 6, 10]),
   ("minor_major7".data, [0, 3, 7, 11]),
   ("augmented7".data, [0, 4, 8, 10]),
   ("major9".data, [0, 4, 7, 11, 2]),
   ("minor9".data, [0, 3, 7, 10, 2]),
   ("dominant9".data, [0, 4, 7, 10, 2]),
   ("major11".data, [0, 4, 7, 11, 2, 5]),
   ("minor11".data, [0, 3, 7, 10, 2, 5]),
   ("dominant11".data, [0, 4, 7, 10, 2, 5]),
   ("major13".data, [0, 4, 7, 11, 2, 5, 9]),
   ("minor13".data, [0, 3, 7, 10, 2, 5, 9]),
   ("dominant13".data, [0, 4, 7, 10, 2, 5, 9]),
   ("dominant7b5".data, [0, 4, 6, 10]),
   ("dominant7#5".data, [0, 4, 8, 10]),
   ("dominant7b9".data, [0, 4, 7, 10, 1]),
   ("dominant7#9".data, [0, 4, 7, 10, 3]),
   ("dominant7#11".data, [0, 4, 7, 10, 6]),
   ("dominant7b13".data, [0, 4, 7, 10, 8])]

/-- The semitone value of a pitch-class string obtained as in the
detector via `Note(pc, 4).midi_number % 12`. -/
def pcSemitone (pc : List Char) : Option ℤ :=
  (noteFromString pc 4).map (fun n => n.midi % 12)

/-- Structural ascending insertion used to model Python's sorted. -/
def insertAsc (x : ℤ) : List ℤ → List ℤ
  | [] => [x]
  | y :: ys => if x ≤ y then x :: y :: ys else y :: insertAsc x ys

/-- Ascending sort of an integer list. -/
def sortAsc (l : List ℤ) : List ℤ :=
  l.foldr insertAsc []

/-- Python sorted(set(...)): the ascending list of distinct values. -/
def sortedDedup (l : List ℤ) : List ℤ :=
  sortAsc l.dedup

/-- Python min over a non-empty note list keyed by MIDI number (the
first minimum wins). -/
def minByMidi (n0 : PyNote) (rest : List PyNote) : PyNote :=
  rest.foldl (fun acc n => if n.midi < acc.midi then n else acc) n0

/-- `ChordDetector._calculate_chord_score`: template coverage, minus
half the extra-note ratio, plus a 0.2 bass-in-root bonus and up to 0.2
of essential-tone bonus, clamped below at 0. -/
def calculateChordScore (normalized : List ℤ) (template : List ℤ)
    (notes : List PyNote) (rootSemitone : ℤ) : ℚ :=
  let templateSet := template.dedup
  let matchCount := (templateSet.filter (fun t => normalized.contains t)).length
  if templateSet.length = 0 then 0
  else
    let matchScore : ℚ := (matchCount : ℚ) / (templateSet.length : ℚ)
    let extraNotes :=
      (normalized.filter (fun s => !(templateSet.contains s))).length
    if normalized.length = 0 then 0
    else
      let extraPenalty : ℚ := (extraNotes : ℚ) / (normalized.length : ℚ)
      let bassBonus : ℚ :=
        match notes with
        | [] => 0
        | n0 :: rest =>
          if (minByMidi n0 rest).midi % 12 = rootSemitone then 0.2 else 0
      let essentialBonus : ℚ :=
        (if (template.contains 3 || template.contains 4) &&
            (normalized.contains 3 || normalized.contains 4)
         then (0.1 : ℚ) else 0) +
        (if template.contains 7 && normalized.contains 7
         then (0.1 : ℚ) else 0)
      max 0 (matchScore - 0.5 * extraPenalty + bassBonus + essentialBonus)

/-- One candidate of the detector's nested root-times-template loop. -/
structure DetCand where
  rootSemitone : ℤ
  rootNote : PyNote
  normalized : List ℤ
  quality : List Char
  template : List ℤ
deriving DecidableEq, Repr

/-- The candidate list in iteration order: roots ascending (paired
with the Note built from the root semitone), each crossed with every
template in catalog order, carrying the normalized semitone set
relative to that root. -/
def detCands (rootPairs : List (ℤ × PyNote)) (semis : List ℤ) :
    List DetCand :=
  rootPairs.flatMap (fun rp =>
    chordTemplates.map (fun qt =>
      ⟨rp.1, rp.2, sortedDedup (semis.map (fun s => (s - rp.1) % 12)),
       qt.1, qt.2⟩))

/-- The score of a candidate. -/
def candScore (notes : List PyNote) (c : DetCand) : ℚ :=
  calculateChordScore c.normalized c.template notes c.rootSemitone

/-- The chord a candidate would construct: slash bass when an explicit
bass with a different pitch-class string was given, and `none` when
the quality is not in `Chord.CHORD_TONES` (the caught ValueError). -/
def candChord (bass : Option PyNote) (c : DetCand) : Option PyChord :=
  let slashBass :=
    match bass with
    | some b => if b.pc ≠ c.rootNote.pc then some b else none
    | none => none
  mkChord c.rootNote c.quality slashBass

/-- One iteration of `_find_best_chord_match`: on a strict score
improvement the best score always advances, while the best chord
advances only when the candidate's quality is constructible (the
except-ValueError-continue path keeps the previous chord). -/
def detectStep (notes : List PyNote) (bass : Option PyNote)
    (acc : ℚ × Option PyChord) (c : DetCand) : ℚ × Option PyChord :=
  let score := candScore notes c
  if score > acc.1 then
    (score,
     match candChord bass c with
     | some ch => some ch
     | none => acc.2)
  else acc

/-- `ChordDetector._find_best_chord_match`: run the candidate loop
from (-1, no chord) and return the best chord only above the 0.5
threshold.  The root Notes are built up front (they are built from
semitones in 0..11, so construction cannot actually fail); the outer
`none` models an uncaught error. -/
def findBestChordMatch (semis : List ℤ) (notes : List PyNote)
    (bass : Option PyNote) : Option (Option PyChord) :=
  match semis.mapM (fun r => (noteFromMidi r).map (fun n => (r, n))) with
  | none => none
  | some rootPairs =>
    let best := (detCands rootPairs semis).foldl (detectStep notes bass)
      (-1, none)
    some (if best.1 > 0.5 then best.2 else none)

/-- `ChordDetector.detect_chord_from_notes`: require min_notes notes
and min_notes distinct pitch-class strings, convert the distinct pitch
classes to semitones via Note(pc, 4), and run the best-match search. -/
def detectChordFromNotes (minNotes : ℕ) (notes : List PyNote)
    (bass : Option PyNote) : Option (Option PyChord) :=
  if notes.length < minNotes then some none
  else
    let pitchClasses := (notes.map (fun n => n.pc)).dedup
    if pitchClasses.length < minNotes then some none
    else
      match pitchClasses.mapM pcSemitone with
      | none => none
      | some semisRaw => findBestChordMatch (sortedDedup semisRaw) notes bass

end Halmoni

-- All definitions are above this line; theorems and supporting lemmas follow.

namespace Halmoni

theorem pitchIndex_bounds {p : List Char} {i : ℤ}
    (h : pitchIndex p = some i) : 0 ≤ i ∧ i ≤ 11 := by
  unfold pitchIndex at h
  cases h1 : chromaticScale.findIdx? (fun q => q = p) with
  | some j =>
    rw [h1] at h
    have hj := (List.findIdx?_eq_some_iff_findIdx_eq.mp h1).1
    have hlen : chromaticScale.length = 12 := by decide
    rw [hlen] at hj
    simp only [Option.some.injEq] at h
    omega
  | none =>
    rw [h1] at h
    cases h2 : flatScale.findIdx? (fun q => q = p) with
    | some j =>
      rw [h2] at h
      have hj := (List.findIdx?_eq_some_iff_findIdx_eq.mp h2).1
      have hlen : flatScale.length = 12 := by decide
      rw [hlen] at hj
      simp only [Option.some.injEq] at h
      omega
    | none => rw [h2] at h; exact absurd h (by simp)

/-- C3 counterexample: the claim that every successfully constructed
Note satisfies 0 ≤ midi_number ≤ 127 and 0 ≤ octave ≤ 10 is false:
Note built from the pitch-class string B with octave 10 is constructed
successfully, yet its MIDI number is 143 > 127 (the string constructor
never checks the resulting MIDI number). -/
theorem note_invariant_counterexample :
    noteFromString "B".data 10 = some ⟨"B".data, 10, 143⟩ ∧
    ¬ ((143 : ℤ) ≤ 127) := by
  constructor
  · decide
  · decide

/-- C3 amended: a Note built from a raw MIDI integer, or returned by
Note.transpose, satisfies 0 ≤ midi ≤ 127 and -1 ≤ octave ≤ 9 (octave
is -1, not 0, for MIDI numbers 0..11); a Note built from a pitch-class
string satisfies 0 ≤ octave ≤ 10 but only 12 ≤ midi ≤ 143, since the
string constructor does not validate the resulting MIDI number. -/
theorem note_range_amended :
    (∀ (m : ℤ) (n : PyNote), noteFromMidi m = some n →
       0 ≤ n.midi ∧ n.midi ≤ 127 ∧ -1 ≤ n.octave ∧ n.octave ≤ 9) ∧
    (∀ (x : PyNote) (s : ℤ) (n : PyNote), transposeNote x s = some n →
       0 ≤ n.midi ∧ n.midi ≤ 127 ∧ -1 ≤ n.octave ∧ n.octave ≤ 9) ∧
    (∀ (p : List Char) (o : ℤ) (n : PyNote), noteFromString p o = some n →
       n.octave = o ∧ 0 ≤ n.octave ∧ n.octave ≤ 10 ∧
       12 ≤ n.midi ∧ n.midi ≤ 143) := by
  have hmidi : ∀ (m : ℤ) (n : PyNote), noteFromMidi m = some n →
      0 ≤ n.midi ∧ n.midi ≤ 127 ∧ -1 ≤ n.octave ∧ n.octave ≤ 9 := by
    intro m n h
    unfold noteFromMidi at h
    split at h
    · rename_i hr
      simp only [Option.some.injEq] at h
      subst h
      refine ⟨?_, ?_, ?_, ?_⟩ <;> simp only <;> omega
    · exact absurd h (by simp)
  refine ⟨hmidi, fun x s n h => hmidi _ n h, ?_⟩
  intro p o n h
  unfold noteFromString at h
  split at h
  · split at h
    · rename_i hoct
      cases hpi : pitchIndex p with
      | some i =>
        rw [hpi] at h
        have hb := pitchIndex_bounds hpi
        simp only [Option.some.injEq] at h
        subst h
        refine ⟨rfl, ?_, ?_, ?_, ?_⟩ <;> simp only <;> omega
      | none => rw [hpi] at h; exact absurd h (by simp)
    · exact absurd h (by simp)
  · exact absurd h (by simp)

/-- C3 witness: the amended range theorem applied to concrete notes
(MIDI 60, a transposition, and the string constructor on C4). -/
theorem note_range_amended_witness :
    (0 ≤ (PyNote.mk "C".data 4 60).midi ∧
       (PyNote.mk "C".data 4 60).midi ≤ 127 ∧
       -1 ≤ (PyNote.mk "C".data 4 60).octave ∧
       (PyNote.mk "C".data 4 60).octave ≤ 9) ∧
    (0 ≤ (PyNote.mk "D".data 4 62).midi ∧
       (PyNote.mk "D".data 4 62).midi ≤ 127 ∧
       -1 ≤ (PyNote.mk "D".data 4 62).octave ∧
       (PyNote.mk "D".data 4 62).octave ≤ 9) ∧
    ((PyNote.mk "C".data 4 60).octave = 4 ∧
       0 ≤ (PyNote.mk "C".data 4 60).octave ∧
       (PyNote.mk "C".data 4 60).octave ≤ 10 ∧
       12 ≤ (PyNote.mk "C".data 4 60).midi ∧
       (PyNote.mk "C".data 4 60).midi ≤ 143) :=
  ⟨note_range_amended.1 60 (PyNote.mk "C".data 4 60) (by decide),
   note_range_amended.2.1 (PyNote.mk "C".data 4 60) 2 (PyNote.mk "D".data 4 62)
     (by decide),
   note_range_amended.2.2 "C".data 4 (PyNote.mk "C".data 4 60) (by decide)⟩

/-- C5: for every quality in the chord catalog and every valid root
pitch class at octave 4 with bass equal to the root, parsing the
chord's own symbol reproduces the chord under Chord equality. -/
theorem chord_symbol_round_trip : roundTripOk = true := by decide

/-- C2 counterexample: the claim assigns 0.6 to the
subdominant-to-tonic transition, but the code has no such case and
returns the default 0.3 for it. -/
theorem functional_transition_counterexample :
    scoreFunctionalTransition "subdominant".data "tonic".data = 0.3 ∧
    (0.3 : ℚ) ≠ 0.6 := by
  constructor
  · with_unfolding_all decide
  · norm_num

/-- C2 amended: the functional-transition table returns 1.0 for
subdominant-to-dominant and dominant-to-tonic, 0.7 for tonic-to-
subdominant and tonic-to-dominant, 0.1 for dominant-to-subdominant,
0.5 for tonic-to-tonic, and 0.3 for every other pair of labels,
including subdominant-to-tonic (there is no 0.6 case). -/
theorem functional_transition_amended :
    scoreFunctionalTransition "subdominant".data "dominant".data = 1 ∧
    scoreFunctionalTransition "dominant".data "tonic".data = 1 ∧
    scoreFunctionalTransition "tonic".data "subdominant".data = 0.7 ∧
    scoreFunctionalTransition "tonic".data "dominant".data = 0.7 ∧
    scoreFunctionalTransition "dominant".data "subdominant".data = 0.1 ∧
    scoreFunctionalTransition "tonic".data "tonic".data = 0.5 ∧
    ∀ f1 f2 : List Char,
      ¬(f1 = "subdominant".data ∧ f2 = "dominant".data) →
      ¬(f1 = "dominant".data ∧ f2 = "tonic".data) →
      ¬(f1 = "tonic".data ∧
          (f2 = "subdominant".data ∨ f2 = "dominant".data)) →
      ¬(f1 = "dominant".data ∧ f2 = "subdominant".data) →
      ¬(f1 = "tonic".data ∧ f2 = "tonic".data) →
      scoreFunctionalTransition f1 f2 = 0.3 := by
  refine ⟨by with_unfolding_all decide, by with_unfolding_all decide,
    by with_unfolding_all decide, by with_unfolding_all decide,
    by with_unfolding_all decide, by with_unfolding_all decide, ?_⟩
  intro f1 f2 h1 h2 h3 h4 h5
  unfold scoreFunctionalTransition
  rw [if_neg h1, if_neg h2, if_neg h3, if_neg h4, if_neg h5]

/-- C2 witness: the amended default case applied to the concrete
subdominant-to-tonic pair. -/
theorem functional_transition_amended_witness :
    scoreFunctionalTransition "subdominant".data "tonic".data = 0.3 :=
  functional_transition_amended.2.2.2.2.2.2 "subdominant".data "tonic".data
    (by decide) (by decide) (by decide) (by decide) (by decide)

/-- C10: Scale.from_mode always leaves the shared SCALE_PATTERNS table
exactly as it found it (also on every failure path), and for the valid
input tonic C4, mode 0, parent major the derived name ionian is not in
the static catalog, so reading the returned Scale's pattern or notes
afterwards raises a KeyError. -/
theorem from_mode_restores_patterns :
    (∀ (table : List (List Char × List ℤ)) (tonic : PyNote)
       (mode : ℕ) (parent : List Char),
       (fromMode table tonic mode parent).2 = table) ∧
    fromMode scalePatterns (PyNote.mk "C".data 4 60) 0 "major".data =
      (some (PyScale.mk (PyNote.mk "C".data 4 60) "ionian".data),
       scalePatterns) ∧
    lookupStr "ionian".data scalePatterns = none ∧
    scaleNotesT scalePatterns
      (PyScale.mk (PyNote.mk "C".data 4 60) "ionian".data) = none := by
  refine ⟨?_, by with_unfolding_all decide, by decide, by decide⟩
  intro t tn m p
  unfold fromMode
  cases lookupStr p t with
  | none => rfl
  | some pp =>
    dsimp only
    split
    · cases mkScaleT (dictInsert _ _ t) tn _ with
      | none => rfl
      | some s => rfl
    · rfl

theorem functionOfDegree_eq_table (mode : List Char) (d : ℕ) :
    functionOfDegree mode d = degreeFunctionTable d := by
  unfold functionOfDegree degreeFunctionTable
  split_ifs <;> first | rfl | omega

/-- C4: whenever Key.analyze_chord returns, its function value is drawn
from tonic, subdominant, dominant or None (the unknown marker); when a
degree was found it equals the fixed table 1,3,6 to tonic, 2,4 to
subdominant, 5,7 to dominant, identically in both modes; and the
degree (hence the function) is None exactly when the chord root's
pitch class is not among the key's scale pitch classes. -/
theorem analyze_chord_function_table :
    ∀ (k : PyKey) (c : PyChord) (a : PyAnalysis),
      analyzeChord k c = some a →
      (a.function = none ∨ a.function = some ("tonic".data) ∨
        a.function = some ("subdominant".data) ∨
        a.function = some ("dominant".data)) ∧
      (∀ d, a.degree = some d → a.function = degreeFunctionTable d) ∧
      (a.degree = none → a.function = none) ∧
      (∀ ns, scaleNotesT scalePatterns (keyScale k) = some ns →
        (a.degree = none ↔ c.root.pc ∉ ns.map (fun n => n.pc))) := by
  intro k c a h
  unfold analyzeChord at h
  cases h1 : getNoteDegree (keyScale k) c.root with
  | none => rw [h1] at h; exact absurd h (by simp)
  | some dOpt =>
    rw [h1] at h
    unfold getNoteDegree at h1
    cases h2 : scaleNotesT scalePatterns (keyScale k) with
    | none => rw [h2] at h1; exact absurd h1 (by simp)
    | some ns0 =>
      rw [h2] at h1
      simp only [Option.map_some', Option.some.injEq] at h1
      cases dOpt with
      | none =>
        simp only [Option.some.injEq] at h
        subst h
        refine ⟨Or.inl rfl, by intro d hd; exact absurd hd (by simp),
          fun _ => rfl, ?_⟩
        intro ns hns
        simp only [Option.some.injEq] at hns
        subst hns
        simp only [true_iff]
        have hnone : ns0.findIdx? (fun sn => sn.pc = c.root.pc) = none := by
          cases h3 : ns0.findIdx? (fun sn => sn.pc = c.root.pc) with
          | none => rfl
          | some i => rw [h3] at h1; exact absurd h1 (by simp)
        rw [List.findIdx?_eq_none_iff] at hnone
        intro hmem
        rcases List.mem_map.mp hmem with ⟨x, hx, hxe⟩
        have := hnone x hx
        rw [hxe] at this
        simp at this
      | some d =>
        cases h3 : ns0.findIdx? (fun sn => sn.pc = c.root.pc) with
        | none => rw [h3] at h1; exact absurd h1 (by simp)
        | some i =>
          rw [h3] at h1
          simp only [Option.map_some', Option.some.injEq] at h1
          dsimp only at h
          cases h4 : getChordForDegree (keyScale k) d with
          | none => rw [h4] at h; exact absurd h (by simp)
          | some expected =>
            rw [h4] at h
            dsimp only at h
            cases h5 : chordPitchClasses c with
            | none => rw [h5] at h; exact absurd h (by simp)
            | some cpcs =>
              rw [h5] at h
              dsimp only at h
              cases h6 : chordPitchClasses expected with
              | none => rw [h6] at h; exact absurd h (by simp)
              | some epcs =>
                rw [h6] at h
                dsimp only at h
                cases h7 : scalePitchClassesOf (keyScale k) with
                | none => rw [h7] at h; exact absurd h (by simp)
                | some spcs =>
                  rw [h7] at h
                  dsimp only at h
                  simp only [Option.some.injEq] at h
                  subst h
                  have htab := functionOfDegree_eq_table k.mode d
                  refine ⟨?_, ?_, by intro hd; exact absurd hd (by simp), ?_⟩
                  · simp only [htab]
                    unfold degreeFunctionTable
                    split_ifs <;> simp
                  · intro d2 hd2
                    simp only [Option.some.injEq] at hd2
                    subst hd2
                    exact htab
                  · intro ns hns
                    simp only [Option.some.injEq] at hns
                    subst hns
                    simp only [reduceCtorEq, false_iff, not_not]
                    rcases List.findIdx?_eq_some_iff_getElem.mp h3 with
                      ⟨hlt, hp, _⟩
                    have hmem0 : ns0[i] ∈ ns0 := List.getElem_mem hlt
                    refine List.mem_map.mpr ⟨ns0[i], hmem0, ?_⟩
                    exact of_decide_eq_true hp

/-- C4 witness: the function-table theorem applied to the D minor
triad analyzed in the key of C major, where the degree is 2 and the
function is subdominant. -/
theorem analyze_chord_function_table_witness :
    ((PyAnalysis.mk (some 2) (some ("subdominant".data)) true []).function
        = none ∨
      (PyAnalysis.mk (some 2) (some ("subdominant".data)) true []).function
        = some ("tonic".data) ∨
      (PyAnalysis.mk (some 2) (some ("subdominant".data)) true []).function
        = some ("subdominant".data) ∨
      (PyAnalysis.mk (some 2) (some ("subdominant".data)) true []).function
        = some ("dominant".data)) ∧
    (∀ d, (PyAnalysis.mk (some 2) (some ("subdominant".data)) true []).degree
        = some d →
      (PyAnalysis.mk (some 2) (some ("subdominant".data)) true []).function
        = degreeFunctionTable d) ∧
    ((PyAnalysis.mk (some 2) (some ("subdominant".data)) true []).degree
        = none →
      (PyAnalysis.mk (some 2) (some ("subdominant".data)) true []).function
        = none) ∧
    (∀ ns, scaleNotesT scalePatterns
        (keyScale (PyKey.mk (PyNote.mk "C".data 4 60) "major".data))
        = some ns →
      ((PyAnalysis.mk (some 2) (some ("subdominant".data)) true []).degree
          = none ↔
        (PyChord.mk (PyNote.mk "D".data 4 62) "minor".data
            (PyNote.mk "D".data 4 62)).root.pc ∉
          ns.map (fun n => n.pc))) :=
  analyze_chord_function_table
    (PyKey.mk (PyNote.mk "C".data 4 60) "major".data)
    (PyChord.mk (PyNote.mk "D".data 4 62) "minor".data
      (PyNote.mk "D".data 4 62))
    (PyAnalysis.mk (some 2) (some ("subdominant".data)) true [])
    (by with_unfolding_all decide)

theorem mkProgression_invariant {cs : List PyChord} {k : Option PyKey}
    {ds : Option (List ℚ)} {q : PyProgression}
    (h : mkProgression cs k ds = some q) : progInvariant q := by
  unfold mkProgression at h
  split at h
  · exact absurd h (by simp)
  · rename_i hne
    cases ds with
    | none =>
      simp only [Option.some.injEq] at h
      subst h
      exact ⟨hne, by simp⟩
    | some d =>
      dsimp only at h
      split at h
      · rename_i hlen
        simp only [Option.some.injEq] at h
        subst h
        exact ⟨hne, hlen.symm⟩
      · exact absurd h (by simp)

/-- C7: ChordProgression construction fails on an empty chord list and
on a durations list of mismatched length, and every progression
returned by transpose, substitute_chord, insert_chord, extend and
repeat satisfies the invariant (non-empty, lengths equal) again. -/
theorem progression_invariant_preserved :
    (∀ (key : Option PyKey) (ds : Option (List ℚ)),
       mkProgression [] key ds = none) ∧
    (∀ (chords : List PyChord) (key : Option PyKey) (ds : List ℚ),
       ds.length ≠ chords.length → mkProgression chords key (some ds) = none) ∧
    (∀ (p : PyProgression) (s : ℤ) (q : PyProgression),
       progressionTranspose p s = some q → progInvariant q) ∧
    (∀ (p : PyProgression) (i : ℕ) (c : PyChord) (q : PyProgression),
       substituteChord p i c = some q → progInvariant q) ∧
    (∀ (p : PyProgression) (i : ℕ) (c : PyChord) (dur : ℚ)
       (q : PyProgression),
       insertChord p i c dur = some q → progInvariant q) ∧
    (∀ (p o q : PyProgression),
       extendProgression p o = some q → progInvariant q) ∧
    (∀ (p : PyProgression) (t : ℕ) (q : PyProgression),
       repeatProgression p t = some q → progInvariant q) := by
  refine ⟨?_, ?_, ?_, ?_, ?_, ?_, ?_⟩
  · intro key ds
    unfold mkProgression
    rw [if_pos rfl]
  · intro cs key ds hne
    unfold mkProgression
    split
    · rfl
    · dsimp only
      rw [if_neg hne]
  · intro p s q h
    unfold progressionTranspose at h
    repeat' split at h
    all_goals first
      | exact mkProgression_invariant h
      | exact absurd h (by simp)
  · intro p i c q h
    unfold substituteChord at h
    split at h
    · exact mkProgression_invariant h
    · exact absurd h (by simp)
  · intro p i c dur q h
    exact mkProgression_invariant h
  · intro p o q h
    exact mkProgression_invariant h
  · intro p t q h
    unfold repeatProgression at h
    split at h
    · exact absurd h (by simp)
    · exact mkProgression_invariant h

/-- C7 witness: the constructor-failure cases and every transform
applied to a concrete one-chord C major progression. -/
theorem progression_invariant_preserved_witness :
    mkProgression [] none none = none ∧
    mkProgression
      [PyChord.mk (PyNote.mk "C".data 4 60) "major".data
        (PyNote.mk "C".data 4 60)] none (some [1, 2]) = none ∧
    progInvariant
      (PyProgression.mk
        [PyChord.mk (PyNote.mk "D".data 4 62) "major".data
          (PyNote.mk "D".data 4 62)] none [1]) ∧
    progInvariant
      (PyProgression.mk
        [PyChord.mk (PyNote.mk "C".data 4 60) "minor".data
          (PyNote.mk "C".data 4 60)] none [1]) ∧
    progInvariant
      (PyProgression.mk
        [PyChord.mk (PyNote.mk "C".data 4 60) "minor".data
           (PyNote.mk "C".data 4 60),
         PyChord.mk (PyNote.mk "C".data 4 60) "major".data
           (PyNote.mk "C".data 4 60)] none [2, 1]) ∧
    progInvariant
      (PyProgression.mk
        [PyChord.mk (PyNote.mk "C".data 4 60) "major".data
           (PyNote.mk "C".data 4 60),
         PyChord.mk (PyNote.mk "C".data 4 60) "major".data
           (PyNote.mk "C".data 4 60)] none [1, 1]) ∧
    progInvariant
      (PyProgression.mk
        [PyChord.mk (PyNote.mk "C".data 4 60) "major".data
           (PyNote.mk "C".data 4 60),
         PyChord.mk (PyNote.mk "C".data 4 60) "major".data
           (PyNote.mk "C".data 4 60)] none [1, 1]) := by
  have pw := progression_invariant_preserved
  refine ⟨pw.1 none none, ?_, ?_, ?_, ?_, ?_, ?_⟩
  · exact pw.2.1 _ none [1, 2] (by decide)
  · exact pw.2.2.1
      (PyProgression.mk
        [PyChord.mk (PyNote.mk "C".data 4 60) "major".data
          (PyNote.mk "C".data 4 60)] none [1]) 2 _
      (by with_unfolding_all decide)
  · exact pw.2.2.2.1
      (PyProgression.mk
        [PyChord.mk (PyNote.mk "C".data 4 60) "major".data
          (PyNote.mk "C".data 4 60)] none [1]) 0
      (PyChord.mk (PyNote.mk "C".data 4 60) "minor".data
        (PyNote.mk "C".data 4 60)) _
      (by with_unfolding_all decide)
  · exact pw.2.2.2.2.1
      (PyProgression.mk
        [PyChord.mk (PyNote.mk "C".data 4 60) "major".data
          (PyNote.mk "C".data 4 60)] none [1]) 0
      (PyChord.mk (PyNote.mk "C".data 4 60) "minor".data
        (PyNote.mk "C".data 4 60)) 2 _
      (by with_unfolding_all decide)
  · exact pw.2.2.2.2.2.1
      (PyProgression.mk
        [PyChord.mk (PyNote.mk "C".data 4 60) "major".data
          (PyNote.mk "C".data 4 60)] none [1])
      (PyProgression.mk
        [PyChord.mk (PyNote.mk "C".data 4 60) "major".data
          (PyNote.mk "C".data 4 60)] none [1]) _
      (by with_unfolding_all decide)
  · exact pw.2.2.2.2.2.2
      (PyProgression.mk
        [PyChord.mk (PyNote.mk "C".data 4 60) "major".data
          (PyNote.mk "C".data 4 60)] none [1]) 2 _
      (by with_unfolding_all decide)

theorem groupsInv_nil : groupsInv [] [] := by
  refine ⟨List.nodup_nil, ?_, ?_⟩
  · intro e he; exact absurd he (List.not_mem_nil e)
  · intro t ht; exact absurd ht (List.not_mem_nil t)

theorem entry_eq_of_key_eq {G : List ((List Char × ℚ) × PySuggestion)}
    (hnodup : (G.map Prod.fst).Nodup) {a b : (List Char × ℚ) × PySuggestion}
    (ha : a ∈ G) (hb : b ∈ G) (hk : a.1 = b.1) : a = b :=
  List.inj_on_of_nodup_map hnodup ha hb hk

theorem groupsInv_step {P : List PySuggestion}
    {G : List ((List Char × ℚ) × PySuggestion)} (hinv : groupsInv P G)
    (s : PySuggestion) : groupsInv (P ++ [s]) (dedupStep G s) := by
  obtain ⟨hnodup, hmem, hcover⟩ := hinv
  unfold dedupStep
  cases hf : G.find? (fun e => e.1 = suggKey s) with
  | none =>
    have hnone : ∀ e, e ∈ G → ¬ (e.1 = suggKey s) := by
      intro e he
      have := List.find?_eq_none.mp hf e he
      simpa using this
    dsimp only
    refine ⟨?_, ?_, ?_⟩
    · rw [List.map_append, List.nodup_append]
      refine ⟨hnodup, List.nodup_singleton _, ?_⟩
      intro k hk hk2
      simp only [List.map_cons, List.map_nil, List.mem_singleton] at hk2
      rcases List.mem_map.mp hk with ⟨e, he, hke⟩
      exact hnone e he (by rw [hke, hk2])
    · intro e he
      rcases List.mem_append.mp he with he1 | he2
      · obtain ⟨hk, hp, hmax⟩ := hmem e he1
        refine ⟨hk, List.mem_append_left _ hp, ?_⟩
        intro t ht htk
        rcases List.mem_append.mp ht with ht1 | ht2
        · exact hmax t ht1 htk
        · simp only [List.mem_singleton] at ht2
          rw [ht2] at htk
          exact absurd htk.symm (hnone e he1)
      · simp only [List.mem_singleton] at he2
        rw [he2]
        refine ⟨rfl, List.mem_append_right _ (by simp), ?_⟩
        intro t ht htk
        rcases List.mem_append.mp ht with ht1 | ht2
        · rcases hcover t ht1 with ⟨e2, he2b, hke2⟩
          exact absurd (hke2.trans htk) (hnone e2 he2b)
        · simp only [List.mem_singleton] at ht2
          rw [ht2]
    · intro t ht
      rcases List.mem_append.mp ht with ht1 | ht2
      · rcases hcover t ht1 with ⟨e, he, hke⟩
        exact ⟨e, List.mem_append_left _ he, hke⟩
      · simp only [List.mem_singleton] at ht2
        rw [ht2]
        exact ⟨(suggKey s, s), List.mem_append_right _ (by simp), rfl⟩
  | some e0 =>
    have he0G : e0 ∈ G := List.mem_of_find?_eq_some hf
    have he0k : e0.1 = suggKey s := by
      have := List.find?_some hf
      simpa using this
    dsimp only
    split
    · rename_i hgt
      refine ⟨?_, ?_, ?_⟩
      · have hfst : (List.map Prod.fst
            (G.map (fun e2 => if e2.1 = suggKey s then (e2.1, s) else e2)))
            = G.map Prod.fst := by
          rw [List.map_map]
          apply List.map_congr_left
          intro e2 _
          by_cases h : e2.1 = suggKey s
          · simp [h]
          · simp [h]
        rw [hfst]
        exact hnodup
      · intro e he
        rcases List.mem_map.mp he with ⟨e2, he2, hee⟩
        obtain ⟨hk2, hp2, hmax2⟩ := hmem e2 he2
        by_cases hc : e2.1 = suggKey s
        · rw [if_pos hc] at hee
          have he2e0 : e2 = e0 :=
            entry_eq_of_key_eq hnodup he2 he0G (hc.trans he0k.symm)
          rw [← hee]
          refine ⟨hc.symm, List.mem_append_right _ (by simp), ?_⟩
          intro t ht htk
          rcases List.mem_append.mp ht with ht1 | ht2
          · have hb := hmax2 t ht1 (by simpa using htk)
            have hlt : e2.2.confidence < s.confidence := by
              rw [he2e0]; exact hgt
            exact le_of_lt (lt_of_le_of_lt hb hlt)
          · simp only [List.mem_singleton] at ht2
            rw [ht2]
        · rw [if_neg hc] at hee
          rw [← hee]
          refine ⟨hk2, List.mem_append_left _ hp2, ?_⟩
          intro t ht htk
          rcases List.mem_append.mp ht with ht1 | ht2
          · exact hmax2 t ht1 htk
          · simp only [List.mem_singleton] at ht2
            rw [ht2] at htk
            exact absurd htk.symm hc
      · intro t ht
        rcases List.mem_append.mp ht with ht1 | ht2
        · rcases hcover t ht1 with ⟨e, he, hke⟩
          by_cases hc : e.1 = suggKey s
          · exact ⟨(e.1, s), List.mem_map.mpr ⟨e, he, by rw [if_pos hc]⟩,
              hke⟩
          · exact ⟨e, List.mem_map.mpr ⟨e, he, by rw [if_neg hc]⟩, hke⟩
        · simp only [List.mem_singleton] at ht2
          rw [ht2]
          exact ⟨(e0.1, s),
            List.mem_map.mpr ⟨e0, he0G, by rw [if_pos he0k]⟩, he0k⟩
    · rename_i hle
      have hle2 : s.confidence ≤ e0.2.confidence := not_lt.mp hle
      refine ⟨hnodup, ?_, ?_⟩
      · intro e he
        obtain ⟨hk, hp, hmax⟩ := hmem e he
        refine ⟨hk, List.mem_append_left _ hp, ?_⟩
        intro t ht htk
        rcases List.mem_append.mp ht with ht1 | ht2
        · exact hmax t ht1 htk
        · simp only [List.mem_singleton] at ht2
          rw [ht2] at htk ⊢
          have hee0 : e = e0 :=
            entry_eq_of_key_eq hnodup he he0G (htk ▸ he0k).symm
          rw [hee0]
          exact hle2
      · intro t ht
        rcases List.mem_append.mp ht with ht1 | ht2
        · exact hcover t ht1
        · simp only [List.mem_singleton] at ht2
          rw [ht2]
          exact ⟨e0, he0G, he0k⟩

theorem groupsInv_foldl :
    ∀ (l P : List PySuggestion) (G : List ((List Char × ℚ) × PySuggestion)),
      groupsInv P G → groupsInv (P ++ l) (l.foldl dedupStep G) := by
  intro l
  induction l with
  | nil => intro P G h; simpa using h
  | cons s l ih =>
    intro P G h
    have h2 := ih (P ++ [s]) (dedupStep G s) (groupsInv_step h s)
    rw [List.append_assoc] at h2
    simpa using h2

theorem removeDuplicates_inv (l : List PySuggestion) :
    groupsInv l (l.foldl dedupStep []) := by
  have := groupsInv_foldl l [] [] groupsInv_nil
  simpa using this

theorem removeDuplicates_pairwise_keys (l : List PySuggestion) :
    (removeDuplicates l).Pairwise (fun a b => suggKey a ≠ suggKey b) := by
  obtain ⟨hnodup, hmem, _⟩ := removeDuplicates_inv l
  unfold removeDuplicates
  rw [List.pairwise_map]
  have hnd : (l.foldl dedupStep []).Pairwise (fun a b => a.1 ≠ b.1) :=
    List.pairwise_map.mp hnodup
  refine hnd.imp_of_mem ?_
  intro a b ha hb hne
  rw [(hmem a ha).1, (hmem b hb).1]
  exact hne

theorem removeDuplicates_max (l : List PySuggestion) (s : PySuggestion)
    (hs : s ∈ removeDuplicates l) :
    s ∈ l ∧ ∀ t, t ∈ l → suggKey t = suggKey s →
      t.confidence ≤ s.confidence := by
  obtain ⟨hnodup, hmem, _⟩ := removeDuplicates_inv l
  unfold removeDuplicates at hs
  rcases List.mem_map.mp hs with ⟨e, he, hes⟩
  obtain ⟨hk, hp, hmax⟩ := hmem e he
  subst hes
  exact ⟨hp, fun t ht htk => hmax t ht (htk.trans hk)⟩

theorem getSuggestionsPost_mem {l : List PySuggestion} {n : ℕ}
    {s : PySuggestion} (hs : s ∈ getSuggestionsPost l n) :
    s ∈ removeDuplicates l := by
  unfold getSuggestionsPost at hs
  have h1 := (List.take_sublist n _).mem hs
  exact List.mem_mergeSort.mp h1

/-- C6: the merged-and-ranked engine output has pairwise distinct
(chord symbol, position) keys; each returned suggestion comes from the
merged input holding the maximum confidence of its key group; for every
input key exactly one suggestion survives deduplication; the output is
sorted by confidence in descending order and has length at most
max_suggestions. -/
theorem engine_dedup_spec :
    (∀ (l : List PySuggestion) (n : ℕ),
       (getSuggestionsPost l n).Pairwise (fun a b => suggKey a ≠ suggKey b)) ∧
    (∀ (l : List PySuggestion) (n : ℕ) (s : PySuggestion),
       s ∈ getSuggestionsPost l n →
       s ∈ l ∧ ∀ t, t ∈ l → suggKey t = suggKey s →
         t.confidence ≤ s.confidence) ∧
    (∀ (l : List PySuggestion) (t : PySuggestion), t ∈ l →
       ∃ v, v ∈ removeDuplicates l ∧ suggKey v = suggKey t ∧
         ∀ w, w ∈ removeDuplicates l → suggKey w = suggKey t → w = v) ∧
    (∀ (l : List PySuggestion) (n : ℕ),
       (getSuggestionsPost l n).Pairwise
         (fun a b => b.confidence ≤ a.confidence)) ∧
    (∀ (l : List PySuggestion) (n : ℕ),
       (getSuggestionsPost l n).length ≤ n) := by
  have hsymm : Symmetric
      (fun a b : PySuggestion => suggKey a ≠ suggKey b) :=
    fun a b h e => h e.symm
  refine ⟨?_, ?_, ?_, ?_, ?_⟩
  · intro l n
    have h1 := removeDuplicates_pairwise_keys l
    have hperm := List.mergeSort_perm (removeDuplicates l)
      (fun a b => decide (b.confidence ≤ a.confidence))
    have h2 := (hperm.pairwise_iff (fun h e => h e.symm)).mpr h1
    exact List.Pairwise.sublist (List.take_sublist n _) h2
  · intro l n s hs
    exact removeDuplicates_max l s (getSuggestionsPost_mem hs)
  · intro l t ht
    obtain ⟨hnodup, hmem, hcover⟩ := removeDuplicates_inv l
    rcases hcover t ht with ⟨e, he, hke⟩
    refine ⟨e.2, List.mem_map.mpr ⟨e, he, rfl⟩, (hmem e he).1.trans hke, ?_⟩
    intro w hw hwk
    rcases List.mem_map.mp hw with ⟨e2, he2, hew⟩
    have hk2 : suggKey e2.2 = e2.1 := (hmem e2 he2).1
    have : e2 = e := by
      refine entry_eq_of_key_eq hnodup he2 he ?_
      rw [← hk2, hew, hwk, ← hke]
    rw [← hew, this]
  · intro l n
    have htrans : ∀ (a b c : PySuggestion),
        (fun a b => decide (b.confidence ≤ a.confidence)) a b →
        (fun a b => decide (b.confidence ≤ a.confidence)) b c →
        (fun a b => decide (b.confidence ≤ a.confidence)) a c := by
      intro a b c hab hbc
      simp only [decide_eq_true_eq] at hab hbc ⊢
      exact le_trans hbc hab
    have htotal : ∀ (a b : PySuggestion),
        ((fun a b => decide (b.confidence ≤ a.confidence)) a b ||
         (fun a b => decide (b.confidence ≤ a.confidence)) b a) = true := by
      intro a b
      simpa using le_total b.confidence a.confidence
    have hsorted := List.sorted_mergeSort htrans htotal (removeDuplicates l)
    have h2 : ((removeDuplicates l).mergeSort
        (fun a b => decide (b.confidence ≤ a.confidence))).Pairwise
        (fun a b => b.confidence ≤ a.confidence) := by
      refine hsorted.imp ?_
      intro a b h
      simpa using h
    exact List.Pairwise.sublist (List.take_sublist n _) h2
  · intro l n
    unfold getSuggestionsPost
    exact List.length_take_le n _

/-- C6 witness: the dedup theorem applied to a concrete merged list
with two suggestions sharing a key at confidences 0.6 and 0.9: the
0.9 one is returned, dominates its group, and survives uniquely. -/
theorem engine_dedup_spec_witness :
    ((PySuggestion.mk
        (PyChord.mk (PyNote.mk "C".data 4 60) "major".data
          (PyNote.mk "C".data 4 60)) 0.9 [] 0 0.5 none) ∈
      [PySuggestion.mk
         (PyChord.mk (PyNote.mk "C".data 4 60) "major".data
           (PyNote.mk "C".data 4 60)) 0.6 [] 0 0.5 none,
       PySuggestion.mk
         (PyChord.mk (PyNote.mk "C".data 4 60) "major".data
           (PyNote.mk "C".data 4 60)) 0.9 [] 0 0.5 none] ∧
     ∀ t, t ∈ [PySuggestion.mk
         (PyChord.mk (PyNote.mk "C".data 4 60) "major".data
           (PyNote.mk "C".data 4 60)) 0.6 [] 0 0.5 none,
       PySuggestion.mk
         (PyChord.mk (PyNote.mk "C".data 4 60) "major".data
           (PyNote.mk "C".data 4 60)) 0.9 [] 0 0.5 none] →
       suggKey t = suggKey (PySuggestion.mk
         (PyChord.mk (PyNote.mk "C".data 4 60) "major".data
           (PyNote.mk "C".data 4 60)) 0.9 [] 0 0.5 none) →
       t.confidence ≤ (PySuggestion.mk
         (PyChord.mk (PyNote.mk "C".data 4 60) "major".data
           (PyNote.mk "C".data 4 60)) 0.9 [] 0 0.5 none).confidence) ∧
    (∃ v, v ∈ removeDuplicates
        [PySuggestion.mk
           (PyChord.mk (PyNote.mk "C".data 4 60) "major".data
             (PyNote.mk "C".data 4 60)) 0.6 [] 0 0.5 none,
         PySuggestion.mk
           (PyChord.mk (PyNote.mk "C".data 4 60) "major".data
             (PyNote.mk "C".data 4 60)) 0.9 [] 0 0.5 none] ∧
       suggKey v = suggKey (PySuggestion.mk
         (PyChord.mk (PyNote.mk "C".data 4 60) "major".data
           (PyNote.mk "C".data 4 60)) 0.6 [] 0 0.5 none) ∧
       ∀ w, w ∈ removeDuplicates
           [PySuggestion.mk
              (PyChord.mk (PyNote.mk "C".data 4 60) "major".data
                (PyNote.mk "C".data 4 60)) 0.6 [] 0 0.5 none,
            PySuggestion.mk
              (PyChord.mk (PyNote.mk "C".data 4 60) "major".data
                (PyNote.mk "C".data 4 60)) 0.9 [] 0 0.5 none] →
         suggKey w = suggKey (PySuggestion.mk
           (PyChord.mk (PyNote.mk "C".data 4 60) "major".data
             (PyNote.mk "C".data 4 60)) 0.6 [] 0 0.5 none) → w = v) := by
  constructor
  · refine engine_dedup_spec.2.1
      [PySuggestion.mk
         (PyChord.mk (PyNote.mk "C".data 4 60) "major".data
           (PyNote.mk "C".data 4 60)) 0.6 [] 0 0.5 none,
       PySuggestion.mk
         (PyChord.mk (PyNote.mk "C".data 4 60) "major".data
           (PyNote.mk "C".data 4 60)) 0.9 [] 0 0.5 none] 20 _ ?_
    unfold getSuggestionsPost
    rw [show removeDuplicates
        [PySuggestion.mk
           (PyChord.mk (PyNote.mk "C".data 4 60) "major".data
             (PyNote.mk "C".data 4 60)) 0.6 [] 0 0.5 none,
         PySuggestion.mk
           (PyChord.mk (PyNote.mk "C".data 4 60) "major".data
             (PyNote.mk "C".data 4 60)) 0.9 [] 0 0.5 none] =
        [PySuggestion.mk
           (PyChord.mk (PyNote.mk "C".data 4 60) "major".data
             (PyNote.mk "C".data 4 60)) 0.9 [] 0 0.5 none]
      from by with_unfolding_all decide]
    rw [List.mergeSort_singleton]
    simp
  · exact engine_dedup_spec.2.2.1
      [PySuggestion.mk
         (PyChord.mk (PyNote.mk "C".data 4 60) "major".data
           (PyNote.mk "C".data 4 60)) 0.6 [] 0 0.5 none,
       PySuggestion.mk
         (PyChord.mk (PyNote.mk "C".data 4 60) "major".data
           (PyNote.mk "C".data 4 60)) 0.9 [] 0 0.5 none]
      (PySuggestion.mk
        (PyChord.mk (PyNote.mk "C".data 4 60) "major".data
          (PyNote.mk "C".data 4 60)) 0.6 [] 0 0.5 none)
      (by simp)

theorem fbk_fold_bounds (corr : List ℚ → List ℚ → Option ℚ)
    (hist : List ℚ) (hc : ∀ a b c, corr a b = some c → c ≤ 1) :
    ∀ (cands : List (PyKey × List ℚ)) (acc : ℚ × PyKey),
      -1 ≤ acc.1 → acc.1 ≤ 1 →
      -1 ≤ (cands.foldl (fbkStep corr hist) acc).1 ∧
      (cands.foldl (fbkStep corr hist) acc).1 ≤ 1 := by
  intro cands
  induction cands with
  | nil => intro acc h1 h2; exact ⟨h1, h2⟩
  | cons cand rest ih =>
    intro acc h1 h2
    simp only [List.foldl_cons]
    have hstep : -1 ≤ (fbkStep corr hist acc cand).1 ∧
        (fbkStep corr hist acc cand).1 ≤ 1 := by
      unfold fbkStep
      cases hcor : corr hist cand.2 with
      | none => exact ⟨h1, h2⟩
      | some c =>
        dsimp only
        split
        · rename_i hgt
          exact ⟨le_of_lt (lt_of_le_of_lt h1 hgt), hc hist cand.2 c hcor⟩
        · exact ⟨h1, h2⟩
    exact ih _ hstep.1 hstep.2

/-- C8: the key detectors return (C major, 0.0) on empty input without
raising; for non-empty input, whenever a result is returned its
confidence equals max(0, (best correlation + 1) / 2) over the built
histogram and lies in the interval from 0 to 1, given that the
external Pearson correlation never exceeds 1. -/
theorem key_detector_confidence :
    (∀ (corr : List ℚ → List ℚ → Option ℚ) (w : Option (List ℚ)),
       detectKeyFromNotes corr [] w = some (defaultKeyC, 0)) ∧
    (∀ (corr : List ℚ → List ℚ → Option ℚ),
       detectKeyFromMidiNotes corr [] = some (defaultKeyC, 0)) ∧
    (∀ (corr : List ℚ → List ℚ → Option ℚ),
       (∀ a b c, corr a b = some c → c ≤ 1) →
       ∀ (notes : List PyNote) (w : Option (List ℚ)) (k : PyKey) (conf : ℚ),
         notes ≠ [] →
         detectKeyFromNotes corr notes w = some (k, conf) →
         (∃ hist, createPitchClassHistogram notes w = some hist ∧
            conf = max 0 ((bestCorrelation corr hist + 1) / 2)) ∧
         0 ≤ conf ∧ conf ≤ 1) := by
  refine ⟨?_, ?_, ?_⟩
  · intro corr w
    unfold detectKeyFromNotes
    rw [if_pos rfl]
  · intro corr
    unfold detectKeyFromMidiNotes
    rw [if_pos rfl]
  · intro corr hc notes w k conf hne hdet
    unfold detectKeyFromNotes at hdet
    rw [if_neg hne] at hdet
    cases hh : createPitchClassHistogram notes w with
    | none => rw [hh] at hdet; exact absurd hdet (by simp)
    | some hist =>
      rw [hh] at hdet
      simp only [Option.some.injEq] at hdet
      have hconf : conf = max 0 ((bestCorrelation corr hist + 1) / 2) := by
        have := congrArg Prod.snd hdet
        simp only [findBestKeyMatch] at this
        rw [← this]
        unfold bestCorrelation
        rfl
      have hb := fbk_fold_bounds corr hist hc keyCandidates
        (-1, defaultKeyC) (by norm_num) (by norm_num)
      refine ⟨⟨hist, rfl, hconf⟩, ?_, ?_⟩
      · rw [hconf]; exact le_max_left 0 _
      · rw [hconf]
        refine max_le (by norm_num) ?_
        have := hb.2
        unfold bestCorrelation
        linarith [hb.2]

set_option maxRecDepth 100000 in
/-- C8 witness: the detector theorem for the empty inputs and, with
the constant correlation 0, for the single note C4, whose confidence
comes out as max(0, (0 + 1) / 2) = 1/2. -/
theorem key_detector_confidence_witness :
    detectKeyFromNotes (fun _ _ => some 0) [] none =
      some (defaultKeyC, 0) ∧
    detectKeyFromMidiNotes (fun _ _ => some 0) [] =
      some (defaultKeyC, 0) ∧
    ((∃ hist, createPitchClassHistogram [PyNote.mk "C".data 4 60] none =
        some hist ∧
       (1 : ℚ) / 2 =
         max 0 ((bestCorrelation (fun _ _ => some 0) hist + 1) / 2)) ∧
     (0 : ℚ) ≤ 1 / 2 ∧ (1 : ℚ) / 2 ≤ 1) :=
  ⟨key_detector_confidence.1 (fun _ _ => some 0) none,
   key_detector_confidence.2.1 (fun _ _ => some 0),
   key_detector_confidence.2.2 (fun _ _ => some 0)
     (by intro a b c h; injection h with h2; rw [← h2]; norm_num)
     [PyNote.mk "C".data 4 60] none defaultKeyC (1 / 2)
     (by simp)
     (by with_unfolding_all decide)⟩

set_option maxHeartbeats 2000000 in
/-- C9: every confidence and voice-leading-quality value a strategy
attaches to a ChordSuggestion lies in the unit interval — the clamped
shared voice-leading formula, each strategy's confidence formula over
all of its branch outcomes (with voice-leading inputs in the unit
interval, as delivered by the shared formula), the literal constants,
and hence (the engine only filters, deduplicates, sorts and truncates)
every suggestion returned by the engine. -/
theorem suggestion_bounds :
    (∀ (pcs1 pcs2 : List (List Char)) (m1 m2 : ℤ),
       0 ≤ calculateVoiceLeadingQuality pcs1 pcs2 m1 m2 ∧
       calculateVoiceLeadingQuality pcs1 pcs2 m1 m2 ≤ 1) ∧
    (∀ b1 b2 b3 b4 : Bool,
       0 ≤ subV7Confidence b1 b2 b3 b4 ∧ subV7Confidence b1 b2 b3 b4 ≤ 1 ∧
       0 ≤ subV7Confidence b1 b2 b3 b4 * 0.85 ∧
       subV7Confidence b1 b2 b3 b4 * 0.85 ≤ 1 ∧
       0 ≤ subV7Confidence b1 b2 b3 b4 * 0.75 ∧
       subV7Confidence b1 b2 b3 b4 * 0.75 ≤ 1) ∧
    (∀ b : Bool, 0 ≤ subV7TritoneVoiceLeading b ∧
       subV7TritoneVoiceLeading b ≤ 1) ∧
    (∀ qualityMod, qualityMod ∈ passingQualityMods →
       ∀ v1 v2 : ℚ, 0 ≤ v1 → v1 ≤ 1 → 0 ≤ v2 → v2 ≤ 1 →
       0 ≤ (v1 + v2) / 2 ∧ (v1 + v2) / 2 ≤ 1 ∧
       0 ≤ chromaticDescendingConfidence qualityMod ((v1 + v2) / 2) ∧
       chromaticDescendingConfidence qualityMod ((v1 + v2) / 2) ≤ 1 ∧
       0 ≤ chromaticAscendingConfidence qualityMod ((v1 + v2) / 2) ∧
       chromaticAscendingConfidence qualityMod ((v1 + v2) / 2) ≤ 1) ∧
    (∀ (b1 b2 b3 b4 : Bool) (vl : ℚ), 0 ≤ vl → vl ≤ 1 →
       0 ≤ borrowedChordConfidence b1 b2 b3 b4 vl ∧
       borrowedChordConfidence b1 b2 b3 b4 vl ≤ 1) ∧
    (∀ (b : Bool) (vl : ℚ), 0 ≤ vl → vl ≤ 1 →
       0 ≤ modalBorrowedConfidence b vl ∧
       modalBorrowedConfidence b vl ≤ 1) ∧
    (∀ (chordType : List Char) (b1 b2 b3 b4 b5 : Bool) (vl : ℚ),
       0 ≤ vl → vl ≤ 1 →
       0 ≤ neapolitanConfidence chordType b1 b2 b3 b4 b5 vl ∧
       neapolitanConfidence chordType b1 b2 b3 b4 b5 vl ≤ 1) ∧
    (∀ (susType : List Char) (b1 b2 b3 b4 : Bool),
       0 ≤ sus4ExtraBoost b4 (suspensionConfidence susType b1 b2 b3) ∧
       sus4ExtraBoost b4 (suspensionConfidence susType b1 b2 b3) ≤ 1) ∧
    (∀ (b1 b2 b3 : Bool) (vl : ℚ), 0 ≤ vl → vl ≤ 1 →
       0 ≤ functionalConfidence b1 b2 b3 vl ∧
       functionalConfidence b1 b2 b3 vl ≤ 1) ∧
    (∀ p, p ∈ constantSuggestionValues →
       0 ≤ p.1 ∧ p.1 ≤ 1 ∧ 0 ≤ p.2 ∧ p.2 ≤ 1) ∧
    (∀ (l : List PySuggestion) (n : ℕ) (s : PySuggestion),
       s ∈ getSuggestionsPost l n → s ∈ l) := by
  refine ⟨?_, ?_, ?_, ?_, ?_, ?_, ?_, ?_, ?_, ?_, ?_⟩
  · intro pcs1 pcs2 m1 m2
    unfold calculateVoiceLeadingQuality
    dsimp only
    constructor
    · split
      · norm_num
      · exact le_min (by norm_num) (le_max_left 0 _)
    · split
      · norm_num
      · exact min_le_left 1 _
  · intro b1 b2 b3 b4
    cases b1 <;> cases b2 <;> cases b3 <;> cases b4 <;>
      with_unfolding_all decide
  · intro b
    cases b <;> with_unfolding_all decide
  · intro qualityMod hm v1 v2 h1 h2 h3 h4
    have havg1 : 0 ≤ (v1 + v2) / 2 := by linarith
    have havg2 : (v1 + v2) / 2 ≤ 1 := by linarith
    simp only [passingQualityMods, List.mem_cons,
      List.not_mem_nil, or_false] at hm
    refine ⟨havg1, havg2, ?_, ?_, ?_, ?_⟩
    · unfold chromaticDescendingConfidence
      refine le_min (by norm_num) ?_
      rcases hm with rfl | rfl | rfl | rfl | rfl | rfl <;> nlinarith
    · exact le_trans (min_le_left _ _) (by norm_num)
    · unfold chromaticAscendingConfidence
      refine le_min (by norm_num) ?_
      rcases hm with rfl | rfl | rfl | rfl | rfl | rfl <;> nlinarith
    · exact le_trans (min_le_left _ _) (by norm_num)
  · intro b1 b2 b3 b4 vl h1 h2
    have hm : 0 ≤ vl * 0.15 := by nlinarith
    unfold borrowedChordConfidence
    constructor
    · refine le_min (by norm_num) ?_
      split_ifs <;> linarith
    · exact le_trans (min_le_left _ _) (by norm_num)
  · intro b vl h1 h2
    have hm : 0 ≤ vl * 0.1 := by nlinarith
    unfold modalBorrowedConfidence
    constructor
    · refine le_min (by norm_num) ?_
      split_ifs <;> linarith
    · exact le_trans (min_le_left _ _) (by norm_num)
  · intro chordType b1 b2 b3 b4 b5 vl h1 h2
    have hq1 : 0 ≤ neapolitanResolutionQuality b4 b5 := by
      cases b4 <;> cases b5 <;> with_unfolding_all decide
    have hq2 : 0 ≤ neapolitanResolutionQuality b4 b5 * 0.2 :=
      mul_nonneg hq1 (by norm_num)
    unfold neapolitanConfidence
    dsimp only
    constructor
    · refine le_min (by norm_num) ?_
      have hA : (0:ℚ) ≤ (if chordType = "sixth".data then (0.85 : ℚ)
          else if chordType = "root".data then 0.65
          else if chordType = "seventh".data then 0.75 else 0.7) := by
        split_ifs <;> norm_num
      have hb1 : (0:ℚ) ≤ if b1 = true then (0.1:ℚ) else 0 := by
        split_ifs <;> norm_num
      have hb2 : (0:ℚ) ≤ if b2 = true then (0.1:ℚ) else 0 := by
        split_ifs <;> norm_num
      have hb3 : (0:ℚ) ≤ if b3 = true then (0.15:ℚ) else 0 := by
        split_ifs <;> norm_num
      have hb4 : (0:ℚ) ≤ if b4 = true then (0.1:ℚ) else 0 := by
        split_ifs <;> norm_num
      have hvl2 : 0 ≤ (vl +
          if chordType = "sixth".data then (0.1:ℚ) else 0) * 0.1 :=
        mul_nonneg (by split_ifs <;> linarith) (by norm_num)
      linarith
    · exact le_trans (min_le_left _ _) (by norm_num)
  · intro susType b1 b2 b3 b4
    unfold sus4ExtraBoost suspensionConfidence
    cases b1 <;> cases b2 <;> cases b3 <;> cases b4 <;>
      split_ifs <;> constructor <;> with_unfolding_all decide
  · intro b1 b2 b3 vl h1 h2
    unfold functionalConfidence
    split
    · constructor <;> norm_num
    · have hm : 0 ≤ vl * 0.15 := by nlinarith
      constructor
      · refine le_min (by norm_num) ?_
        split_ifs <;> linarith
      · exact le_trans (min_le_left _ _) (by norm_num)
  · intro p hp
    simp only [constantSuggestionValues, List.mem_cons,
      List.not_mem_nil, or_false] at hp
    rcases hp with rfl | rfl | rfl | rfl | rfl | rfl | rfl <;>
      refine ⟨?_, ?_, ?_, ?_⟩ <;> norm_num
  · intro l n s hs
    exact (removeDuplicates_max l s (getSuggestionsPost_mem hs)).1

/-- C9 witness: the bounds theorem applied at concrete inputs, with
every voice-leading input instantiated to 1/2. -/
theorem suggestion_bounds_witness :
    (0 ≤ calculateVoiceLeadingQuality ["C".data] ["C".data] 60 62 ∧
       calculateVoiceLeadingQuality ["C".data] ["C".data] 60 62 ≤ 1) ∧
    (0 ≤ (1 + (1 : ℚ) / 2) / 2 ∧ (1 + (1 : ℚ) / 2) / 2 ≤ 1 ∧
       0 ≤ chromaticDescendingConfidence 1 ((1 + (1 : ℚ) / 2) / 2) ∧
       chromaticDescendingConfidence 1 ((1 + (1 : ℚ) / 2) / 2) ≤ 1 ∧
       0 ≤ chromaticAscendingConfidence 1 ((1 + (1 : ℚ) / 2) / 2) ∧
       chromaticAscendingConfidence 1 ((1 + (1 : ℚ) / 2) / 2) ≤ 1) ∧
    (0 ≤ borrowedChordConfidence true true false true (1 / 2) ∧
       borrowedChordConfidence true true false true (1 / 2) ≤ 1) ∧
    (0 ≤ modalBorrowedConfidence true (1 / 2) ∧
       modalBorrowedConfidence true (1 / 2) ≤ 1) ∧
    (0 ≤ neapolitanConfidence ("sixth".data) true true true true true
         (1 / 2) ∧
       neapolitanConfidence ("sixth".data) true true true true true
         (1 / 2) ≤ 1) ∧
    (0 ≤ functionalConfidence true true false (1 / 2) ∧
       functionalConfidence true true false (1 / 2) ≤ 1) ∧
    (0 ≤ ((0.85 : ℚ), (0.9 : ℚ)).1 ∧ ((0.85 : ℚ), (0.9 : ℚ)).1 ≤ 1 ∧
       0 ≤ ((0.85 : ℚ), (0.9 : ℚ)).2 ∧ ((0.85 : ℚ), (0.9 : ℚ)).2 ≤ 1) :=
  ⟨suggestion_bounds.1 ["C".data] ["C".data] 60 62,
   suggestion_bounds.2.2.2.1 1 (by with_unfolding_all decide) 1 (1 / 2)
     (by norm_num) (by norm_num) (by norm_num) (by norm_num),
   suggestion_bounds.2.2.2.2.1 true true false true (1 / 2)
     (by norm_num) (by norm_num),
   suggestion_bounds.2.2.2.2.2.1 true (1 / 2) (by norm_num) (by norm_num),
   suggestion_bounds.2.2.2.2.2.2.1 ("sixth".data) true true true true true
     (1 / 2) (by norm_num) (by norm_num),
   suggestion_bounds.2.2.2.2.2.2.2.2.1 true true false (1 / 2)
     (by norm_num) (by norm_num),
   suggestion_bounds.2.2.2.2.2.2.2.2.2.1 ((0.85 : ℚ), (0.9 : ℚ))
     (by with_unfolding_all decide)⟩

theorem candScore_nonneg (notes : List PyNote) (c : DetCand) :
    0 ≤ candScore notes c := by
  unfold candScore calculateChordScore
  dsimp only
  split
  · norm_num
  · split
    · norm_num
    · exact le_max_left 0 _

theorem detectStep_eq (notes : List PyNote) (bass : Option PyNote)
    (acc : ℚ × Option PyChord) (c : DetCand) :
    detectStep notes bass acc c =
      if candScore notes c > acc.1 then
        (candScore notes c,
         match candChord bass c with
         | some ch => some ch
         | none => acc.2)
      else acc := rfl

theorem detectChordFromNotes_open (minNotes : ℕ) (notes : List PyNote)
    (bass : Option PyNote) (semisRaw : List ℤ)
    (rootPairs : List (ℤ × PyNote))
    (h1 : ¬ notes.length < minNotes)
    (h2 : ¬ (notes.map (fun n => n.pc)).dedup.length < minNotes)
    (hsem : ((notes.map (fun n => n.pc)).dedup).mapM pcSemitone =
      some semisRaw)
    (hroots : (sortedDedup semisRaw).mapM
        (fun r => (noteFromMidi r).map (fun n => (r, n))) =
      some rootPairs) :
    detectChordFromNotes minNotes notes bass =
      some (if ((detCands rootPairs (sortedDedup semisRaw)).foldl
          (detectStep notes bass) (-1, none)).1 > 0.5 then
        ((detCands rootPairs (sortedDedup semisRaw)).foldl
          (detectStep notes bass) (-1, none)).2 else none) := by
  unfold detectChordFromNotes
  rw [if_neg h1]
  dsimp only
  rw [if_neg h2, hsem]
  dsimp only
  unfold findBestChordMatch
  rw [hroots]

theorem detectStep_fst_eq (notes : List PyNote) (bass : Option PyNote)
    (acc : ℚ × Option PyChord) (c : DetCand) :
    (detectStep notes bass acc c).1 = max acc.1 (candScore notes c) := by
  unfold detectStep
  dsimp only
  split
  · rename_i hgt
    exact (max_eq_right (le_of_lt hgt)).symm
  · rename_i hle
    exact (max_eq_left (not_lt.mp hle)).symm

theorem detectFold_fst (notes : List PyNote) (bass : Option PyNote) :
    ∀ (l : List DetCand) (acc : ℚ × Option PyChord),
      ((l.foldl (detectStep notes bass) acc).1 =
        (l.map (candScore notes)).foldl max acc.1) := by
  intro l
  induction l with
  | nil => intro acc; rfl
  | cons c rest ih =>
    intro acc
    simp only [List.foldl_cons, List.map_cons]
    rw [ih, detectStep_fst_eq]

theorem detectFold_isSome (notes : List PyNote) (bass : Option PyNote) :
    ∀ (l : List DetCand) (acc : ℚ × Option PyChord),
      acc.2.isSome → ((l.foldl (detectStep notes bass) acc).2.isSome) := by
  intro l
  induction l with
  | nil => intro acc h; exact h
  | cons c rest ih =>
    intro acc h
    simp only [List.foldl_cons]
    refine ih _ ?_
    unfold detectStep
    dsimp only
    split
    · cases hc : candChord bass c with
      | none => exact h
      | some ch => rfl
    · exact h

theorem detectFold_no_update (notes : List PyNote) (bass : Option PyNote) :
    ∀ (l : List DetCand) (acc : ℚ × Option PyChord),
      (∀ c, c ∈ l → candScore notes c ≤ acc.1) →
      l.foldl (detectStep notes bass) acc = acc := by
  intro l
  induction l with
  | nil => intro acc _; rfl
  | cons c rest ih =>
    intro acc h
    simp only [List.foldl_cons]
    have hsc : detectStep notes bass acc c = acc := by
      unfold detectStep
      dsimp only
      rw [if_neg (not_lt.mpr (h c (List.mem_cons_self c rest)))]
    rw [hsc]
    exact ih acc (fun x hx => h x (List.mem_cons_of_mem c hx))

theorem foldl_max_lt (s : ℚ) :
    ∀ (l : List ℚ) (b : ℚ), b < s → (∀ x, x ∈ l → x < s) →
      l.foldl max b < s := by
  intro l
  induction l with
  | nil => intro b hb _; exact hb
  | cons y rest ih =>
    intro b hb h
    simp only [List.foldl_cons]
    refine ih _ (max_lt hb (h y (List.mem_cons_self y rest))) ?_
    intro x hx
    exact h x (List.mem_cons_of_mem y hx)

/-- C1 amended: under the detector's eligibility checks, the best
score is the running maximum of the candidate scores over present-
pitch-class roots crossed with all 28 detector templates (eight of
which are not constructible Chord qualities, yet still raise the
maximum); a chord is returned exactly when that maximum exceeds 0.5,
and the returned chord is the first candidate achieving the maximum
provided that candidate's quality is constructible. -/
theorem detect_chord_amended :
    ∀ (minNotes : ℕ) (notes : List PyNote) (bass : Option PyNote)
      (semisRaw : List ℤ) (rootPairs : List (ℤ × PyNote)),
      ¬ notes.length < minNotes →
      ¬ (notes.map (fun n => n.pc)).dedup.length < minNotes →
      ((notes.map (fun n => n.pc)).dedup).mapM pcSemitone = some semisRaw →
      (sortedDedup semisRaw).mapM
          (fun r => (noteFromMidi r).map (fun n => (r, n))) =
        some rootPairs →
      (∃ res, detectChordFromNotes minNotes notes bass = some res ∧
         (res.isSome ↔ (0.5 : ℚ) <
           ((detCands rootPairs (sortedDedup semisRaw)).map
             (candScore notes)).foldl max (-1))) ∧
      (∀ pre c post,
         detCands rootPairs (sortedDedup semisRaw) = pre ++ c :: post →
         (∀ x, x ∈ pre → candScore notes x < candScore notes c) →
         (∀ x, x ∈ post → candScore notes x ≤ candScore notes c) →
         (0.5 : ℚ) < candScore notes c →
         ∀ ch, candChord bass c = some ch →
         detectChordFromNotes minNotes notes bass = some (some ch)) := by
  intro minNotes notes bass semisRaw rootPairs h1 h2 hsem hroots
  have hopen := detectChordFromNotes_open minNotes notes bass
    semisRaw rootPairs h1 h2 hsem hroots
  constructor
  · refine ⟨_, hopen, ?_⟩
    have hfst := detectFold_fst notes bass
      (detCands rootPairs (sortedDedup semisRaw)) (-1, none)
    by_cases hm : (0.5 : ℚ) <
        ((detCands rootPairs (sortedDedup semisRaw)).map
          (candScore notes)).foldl max (-1)
    · rw [if_pos (by rw [hfst]; exact hm)]
      simp only [hm, iff_true]
      cases hrp : rootPairs with
      | nil =>
        exfalso
        rw [hrp] at hfst hm
        simp only [detCands, List.flatMap_nil, List.map_nil,
          List.foldl_nil] at hm
        norm_num at hm
      | cons rp rps =>
        have hcands : detCands (rp :: rps) (sortedDedup semisRaw) =
            (⟨rp.1, rp.2,
              sortedDedup ((sortedDedup semisRaw).map
                (fun s => (s - rp.1) % 12)),
              "major".data, [0, 4, 7]⟩ : DetCand) ::
            ((chordTemplates.drop 1).map (fun qt =>
              ⟨rp.1, rp.2,
               sortedDedup ((sortedDedup semisRaw).map
                 (fun s => (s - rp.1) % 12)), qt.1, qt.2⟩) ++
             detCands rps (sortedDedup semisRaw)) := by
          rfl
        rw [hcands]
        simp only [List.foldl_cons]
        refine detectFold_isSome notes bass _ _ ?_
        have hsomec : ∀ (acc : ℚ × Option PyChord) (c : DetCand),
            c.quality = "major".data →
            candScore notes c > acc.1 →
            ((detectStep notes bass acc c).2).isSome = true := by
          intro acc c hq hgt
          unfold detectStep
          dsimp only
          rw [if_pos hgt]
          cases hc : candChord bass c with
          | some ch => rfl
          | none =>
            exfalso
            unfold candChord mkChord at hc
            rw [hq] at hc
            rw [show lookupStr ("major".data) chordTones =
                some ([0, 4, 7] : List ℤ) from by
                  with_unfolding_all decide] at hc
            simp at hc
        exact hsomec _ _ rfl
          (lt_of_lt_of_le (by norm_num) (candScore_nonneg notes _))
    · rw [if_neg (by rw [hfst]; exact hm)]
      simp only [hm, iff_false, Option.isSome_none]
      exact fun h => Bool.noConfusion h
  · intro pre c post hdec hpre hpost hthr ch hch
    rw [hopen, hdec]
    rw [List.foldl_append]
    simp only [List.foldl_cons]
    have hprefst := detectFold_fst notes bass pre (-1, none)
    have hprelt : (pre.foldl (detectStep notes bass) (-1, none)).1 <
        candScore notes c := by
      rw [hprefst]
      refine foldl_max_lt _ _ _ ?_ ?_
      · show (-1 : ℚ) < candScore notes c
        linarith
      · intro x hx
        rcases List.mem_map.mp hx with ⟨y, hy, hxy⟩
        rw [← hxy]
        exact hpre y hy
    have hstep : detectStep notes bass
        (pre.foldl (detectStep notes bass) (-1, none)) c =
        (candScore notes c, some ch) := by
      rw [detectStep_eq, if_pos hprelt, hch]
    rw [hstep]
    have hrest := detectFold_no_update notes bass post
      (candScore notes c, some ch) (fun x hx => hpost x hx)
    rw [hrest]
    rw [if_pos hthr]

set_option maxRecDepth 100000 in
/-- C1 counterexample: on the notes C4, E4, F#4, A#4 (pitch classes
0, 4, 6, 10) with no explicit bass, the detector returns the C
dominant7 chord even though that candidate scores 37/40 while the
maximum score over all candidate roots crossed with all cataloged
templates is 13/10, achieved by the dominant7b5 template — whose
quality is absent from Chord.CHORD_TONES, so its Chord construction
raises ValueError and the loop keeps the earlier chord.  The claimed
argmax property is therefore false. -/
theorem detect_chord_counterexample :
    detectChordFromNotes 2
        [PyNote.mk "C".data 4 60, PyNote.mk "E".data 4 64,
         PyNote.mk "F#".data 4 66, PyNote.mk "A#".data 4 70] none =
      some (some (PyChord.mk (PyNote.mk "C".data (-1) 0)
        ("dominant7".data) (PyNote.mk "C".data (-1) 0))) ∧
    candScore
        [PyNote.mk "C".data 4 60, PyNote.mk "E".data 4 64,
         PyNote.mk "F#".data 4 66, PyNote.mk "A#".data 4 70]
        (DetCand.mk 0 (PyNote.mk "C".data (-1) 0) [0, 4, 6, 10]
          ("dominant7".data) [0, 4, 7, 10]) = 37 / 40 ∧
    ((detCands
        [(0, PyNote.mk "C".data (-1) 0), (4, PyNote.mk "E".data (-1) 4),
         (6, PyNote.mk "F#".data (-1) 6),
         (10, PyNote.mk "A#".data (-1) 10)]
        (sortedDedup [0, 4, 6, 10])).map
      (candScore
        [PyNote.mk "C".data 4 60, PyNote.mk "E".data 4 64,
         PyNote.mk "F#".data 4 66, PyNote.mk "A#".data 4 70])).foldl
      max (-1) = 13 / 10 ∧
    candScore
        [PyNote.mk "C".data 4 60, PyNote.mk "E".data 4 64,
         PyNote.mk "F#".data 4 66, PyNote.mk "A#".data 4 70]
        (DetCand.mk 0 (PyNote.mk "C".data (-1) 0) [0, 4, 6, 10]
          ("dominant7b5".data) [0, 4, 6, 10]) = 13 / 10 ∧
    lookupStr ("dominant7b5".data) chordTones = none ∧
    (sortedDedup [0, 4, 6, 10]).mapM
        (fun r => (noteFromMidi r).map (fun n => (r, n))) =
      some
        [(0, PyNote.mk "C".data (-1) 0), (4, PyNote.mk "E".data (-1) 4),
         (6, PyNote.mk "F#".data (-1) 6),
         (10, PyNote.mk "A#".data (-1) 10)] ∧
    ¬ ((37 : ℚ) / 40 = 13 / 10) := by
  refine ⟨?_, by with_unfolding_all decide, ?_,
    by with_unfolding_all decide, by decide,
    by with_unfolding_all decide, by with_unfolding_all decide⟩
  · have hfold : (detCands
        [(0, PyNote.mk "C".data (-1) 0), (4, PyNote.mk "E".data (-1) 4),
         (6, PyNote.mk "F#".data (-1) 6),
         (10, PyNote.mk "A#".data (-1) 10)]
        (sortedDedup [0, 4, 6, 10])).foldl
        (detectStep
          [PyNote.mk "C".data 4 60, PyNote.mk "E".data 4 64,
           PyNote.mk "F#".data 4 66, PyNote.mk "A#".data 4 70] none)
        (-1, none) =
        (13 / 10, some (PyChord.mk (PyNote.mk "C".data (-1) 0)
          ("dominant7".data) (PyNote.mk "C".data (-1) 0))) := by
      rw [← List.take_append_drop 56 (detCands
        [(0, PyNote.mk "C".data (-1) 0), (4, PyNote.mk "E".data (-1) 4),
         (6, PyNote.mk "F#".data (-1) 6),
         (10, PyNote.mk "A#".data (-1) 10)]
        (sortedDedup [0, 4, 6, 10])), List.foldl_append]
      rw [show ((detCands
          [(0, PyNote.mk "C".data (-1) 0),
           (4, PyNote.mk "E".data (-1) 4),
           (6, PyNote.mk "F#".data (-1) 6),
           (10, PyNote.mk "A#".data (-1) 10)]
          (sortedDedup [0, 4, 6, 10])).take 56).foldl
          (detectStep
            [PyNote.mk "C".data 4 60, PyNote.mk "E".data 4 64,
             PyNote.mk "F#".data 4 66, PyNote.mk "A#".data 4 70] none)
          (-1, none) =
          (13 / 10, some (PyChord.mk (PyNote.mk "C".data (-1) 0)
            ("dominant7".data) (PyNote.mk "C".data (-1) 0))) from by
        with_unfolding_all decide]
      with_unfolding_all decide
    rw [detectChordFromNotes_open 2
      [PyNote.mk "C".data 4 60, PyNote.mk "E".data 4 64,
       PyNote.mk "F#".data 4 66, PyNote.mk "A#".data 4 70] none
      [0, 4, 6, 10]
      [(0, PyNote.mk "C".data (-1) 0), (4, PyNote.mk "E".data (-1) 4),
       (6, PyNote.mk "F#".data (-1) 6),
       (10, PyNote.mk "A#".data (-1) 10)]
      (by decide) (by decide) (by with_unfolding_all decide)
      (by with_unfolding_all decide), hfold]
    with_unfolding_all decide
  · rw [← List.take_append_drop 56 (detCands
      [(0, PyNote.mk "C".data (-1) 0), (4, PyNote.mk "E".data (-1) 4),
       (6, PyNote.mk "F#".data (-1) 6),
       (10, PyNote.mk "A#".data (-1) 10)]
      (sortedDedup [0, 4, 6, 10])), List.map_append, List.foldl_append]
    rw [show (((detCands
        [(0, PyNote.mk "C".data (-1) 0), (4, PyNote.mk "E".data (-1) 4),
         (6, PyNote.mk "F#".data (-1) 6),
         (10, PyNote.mk "A#".data (-1) 10)]
        (sortedDedup [0, 4, 6, 10])).take 56).map
        (candScore
          [PyNote.mk "C".data 4 60, PyNote.mk "E".data 4 64,
           PyNote.mk "F#".data 4 66, PyNote.mk "A#".data 4 70])).foldl
        max (-1) = 13 / 10 from by with_unfolding_all decide]
    with_unfolding_all decide

set_option maxRecDepth 100000 in
/-- Witness for the amended C1 theorem at the concrete input C4, E4
with no bass: the hypotheses hold by evaluation and the detector
returns the C major chord. -/
theorem detect_chord_amended_witness :
    detectChordFromNotes 2
        [PyNote.mk "C".data 4 60, PyNote.mk "E".data 4 64] none =
      some (some (PyChord.mk (PyNote.mk "C".data (-1) 0)
        ("major".data) (PyNote.mk "C".data (-1) 0))) :=
  (detect_chord_amended 2
      [PyNote.mk "C".data 4 60, PyNote.mk "E".data 4 64] none [0, 4]
      [(0, PyNote.mk "C".data (-1) 0), (4, PyNote.mk "E".data (-1) 4)]
      (by with_unfolding_all decide) (by with_unfolding_all decide)
      (by with_unfolding_all decide) (by with_unfolding_all decide)).2
    []
    (DetCand.mk 0 (PyNote.mk "C".data (-1) 0) [0, 4]
      ("major".data) [0, 4, 7])
    ((detCands
        [(0, PyNote.mk "C".data (-1) 0), (4, PyNote.mk "E".data (-1) 4)]
        (sortedDedup [0, 4])).drop 1)
    (by with_unfolding_all decide)
    (by with_unfolding_all decide)
    (by with_unfolding_all decide)
    (by with_unfolding_all decide)
    _ (by with_unfolding_all decide)

end Halmoni
